import Mathlib

/-!
Verification development for the prefab-tool repository: a Unity-YAML
canonicalizer (parser, normalizer, validator, three-way merge engine) plus an
MCP JSON-RPC server.  The core modules (`prefab_tool.parser`,
`prefab_tool.normalizer`, `prefab_tool.validator`, `prefab_tool.merge`) are not
present in the source tree (only their caller `prefab_tool/cli.py` and the MCP
server `unityflow/mcp/server.py` are), so those components are modelled from
the specification; the CLI option plumbing and the MCP server are embedded
directly from the source.

All executable definitions use `Nat`/`Int` arithmetic and explicit character
lists so that concrete runs reduce inside the kernel; rational numbers appear
only in specification-side lemmas.
-/

namespace PrefabTool

/-! ### Characters and decimal digit strings -/

def digitChar (d : Nat) : Char := Char.ofNat (48 + d)

def isDigitChar (c : Char) : Bool := 48 ≤ c.toNat && c.toNat ≤ 57

def charVal (c : Char) : Nat := c.toNat - 48

/-- Little-endian digit characters of `n`, with explicit fuel. -/
def natToCharsAux : Nat → Nat → List Char
  | 0, _ => []
  | fuel + 1, n => if n = 0 then [] else digitChar (n % 10) :: natToCharsAux fuel (n / 10)

/-- Big-endian decimal representation of a natural number, as characters. -/
def natToChars (n : Nat) : List Char :=
  if n = 0 then [digitChar 0] else (natToCharsAux n n).reverse

/-- Big-endian decimal value of a digit-character list. -/
def parseDigitsBE (cs : List Char) : Nat :=
  cs.foldl (fun a c => a * 10 + charVal c) 0

theorem digitChar_val {d : Nat} (h : d < 10) : charVal (digitChar d) = d := by
  interval_cases d <;> decide

theorem digitChar_isDigit {d : Nat} (h : d < 10) : isDigitChar (digitChar d) = true := by
  interval_cases d <;> decide

theorem parseDigitsBE_foldl_init (a : Nat) (ys : List Char) :
    List.foldl (fun acc c => acc * 10 + charVal c) a ys =
      a * 10 ^ ys.length + parseDigitsBE ys := by
  induction ys generalizing a with
  | nil => simp [parseDigitsBE]
  | cons c ys ih =>
    show List.foldl _ (a * 10 + charVal c) ys = _
    rw [ih (a * 10 + charVal c)]
    have : parseDigitsBE (c :: ys) = charVal c * 10 ^ ys.length + parseDigitsBE ys := by
      show List.foldl _ (0 * 10 + charVal c) ys = _
      rw [ih (0 * 10 + charVal c)]; ring_nf
    rw [this]
    simp [List.length_cons]
    ring

theorem parseDigitsBE_append (xs ys : List Char) :
    parseDigitsBE (xs ++ ys) = parseDigitsBE xs * 10 ^ ys.length + parseDigitsBE ys := by
  unfold parseDigitsBE
  rw [List.foldl_append]
  exact parseDigitsBE_foldl_init _ ys

theorem parseDigitsBE_snoc (xs : List Char) (c : Char) :
    parseDigitsBE (xs ++ [c]) = parseDigitsBE xs * 10 + charVal c := by
  simp [parseDigitsBE, List.foldl_append]

theorem natToCharsAux_spec : ∀ fuel n, n ≤ fuel →
    parseDigitsBE (natToCharsAux fuel n).reverse = n ∧
    ∀ c ∈ natToCharsAux fuel n, isDigitChar c = true := by
  intro fuel
  induction fuel with
  | zero => intro n hn; interval_cases n; exact ⟨rfl, by simp [natToCharsAux]⟩
  | succ fuel ih =>
    intro n hn
    by_cases h0 : n = 0
    · subst h0; exact ⟨rfl, by simp [natToCharsAux]⟩
    · have hdiv : n / 10 ≤ fuel := by
        have : n / 10 < n := Nat.div_lt_self (Nat.pos_of_ne_zero h0) (by omega)
        omega
      obtain ⟨ihv, ihd⟩ := ih (n / 10) hdiv
      constructor
      · simp only [natToCharsAux, if_neg h0, List.reverse_cons]
        rw [parseDigitsBE_snoc, ihv, digitChar_val (Nat.mod_lt _ (by omega))]
        omega
      · intro c hc
        simp only [natToCharsAux, if_neg h0, List.mem_cons] at hc
        rcases hc with rfl | hc
        · exact digitChar_isDigit (Nat.mod_lt _ (by omega))
        · exact ihd c hc

theorem parseDigitsBE_natToChars (n : Nat) : parseDigitsBE (natToChars n) = n := by
  unfold natToChars
  by_cases h : n = 0
  · subst h; decide
  · rw [if_neg h]; exact (natToCharsAux_spec n n le_rfl).1

theorem natToChars_digits (n : Nat) : ∀ c ∈ natToChars n, isDigitChar c = true := by
  unfold natToChars
  by_cases h : n = 0
  · subst h; decide
  · rw [if_neg h]
    intro c hc
    exact (natToCharsAux_spec n n le_rfl).2 c (List.mem_reverse.mp hc)

theorem natToChars_ne_nil (n : Nat) : natToChars n ≠ [] := by
  unfold natToChars
  by_cases h : n = 0
  · subst h; decide
  · rw [if_neg h]
    intro hrev
    have hnil : natToCharsAux n n = [] := List.reverse_eq_nil_iff.mp hrev
    have hv := (natToCharsAux_spec n n le_rfl).1
    rw [hnil] at hv
    simp [parseDigitsBE] at hv
    exact h hv.symm

/-! ### Parsed decimal numbers

A scalar that is lexically a (decimal) floating-point literal is represented
exactly as `num / 10 ^ scale`; all arithmetic on these stays in `Int`/`Nat`
so that it evaluates inside the kernel. -/

structure Dec where
  num : Int
  scale : Nat
  deriving DecidableEq

/-- The exact rational value of a parsed decimal. -/
def decVal (d : Dec) : ℚ := (d.num : ℚ) / 10 ^ d.scale

def hyphenChar : Char := Char.ofNat 45

def dotChar : Char := Char.ofNat 46

/-- Numerator (at scale `p`) of `d` rounded to `p` fractional digits,
half away from zero. -/
def roundDecNum (d : Dec) (p : Nat) : Int :=
  let m := d.num.natAbs
  let r : Nat :=
    if d.scale ≤ p then m * 10 ^ (p - d.scale)
    else (2 * m + 10 ^ (d.scale - p)) / (2 * 10 ^ (d.scale - p))
  if d.num < 0 then -(r : Int) else (r : Int)

/-- Remove trailing zero characters. -/
def trimZeros (cs : List Char) : List Char :=
  (cs.reverse.dropWhile (fun c => c = digitChar 0)).reverse

/-- Left-pad a digit string with zeros up to `p` characters. -/
def padDigits (p : Nat) (cs : List Char) : List Char :=
  List.replicate (p - cs.length) (digitChar 0) ++ cs

/-- Fractional digit characters for the fractional part `mFrac` (at scale `p`):
trailing zeros trimmed, at least one fractional digit retained. -/
def fracCharsOf (mFrac : Nat) (p : Nat) : List Char :=
  let frac := trimZeros (padDigits p (natToChars mFrac))
  if frac = [] then [digitChar 0] else frac

/-- Fixed-precision decimal rendering of the scaled integer `n / 10 ^ p`:
trailing zeros trimmed, at least one fractional digit retained. -/
def renderFixed (n : Int) (p : Nat) : List Char :=
  let m := n.natAbs
  (if n < 0 then [hyphenChar] else []) ++
    natToChars (m / 10 ^ p) ++ dotChar :: fracCharsOf (m % 10 ^ p) p

/-- Recognize a decimal floating-point literal `[-]digits.digits` and return
its exact value. -/
def parseFloat? (cs : List Char) : Option Dec :=
  let neg : Bool := match cs with
    | c :: _ => c = hyphenChar
    | [] => false
  let t := if neg then cs.tail else cs
  let ip := t.takeWhile isDigitChar
  let rest := t.dropWhile isDigitChar
  match rest with
  | c :: fs =>
      if c = dotChar ∧ ip ≠ [] ∧ fs ≠ [] ∧ fs.all isDigitChar then
        let m : Nat := parseDigitsBE ip * 10 ^ fs.length + parseDigitsBE fs
        some ⟨if neg then -(m : Int) else (m : Int), fs.length⟩
      else none
  | [] => none

/-- Recognize an integer literal. -/
def parseInt? (cs : List Char) : Option Int :=
  match cs with
  | [] => none
  | c :: r =>
      if c = hyphenChar then
        if r ≠ [] ∧ r.all isDigitChar then some (-(parseDigitsBE r : Int)) else none
      else if cs.all isDigitChar then some (parseDigitsBE cs : Int) else none

/-- Recognize a numeric literal (decimal float or integer). -/
def parseNum? (cs : List Char) : Option Dec :=
  match parseFloat? cs with
  | some d => some d
  | none =>
      match parseInt? cs with
      | some i => some ⟨i, 0⟩
      | none => none

/-! ### Round-trip facts about the fixed-precision decimal renderer -/

theorem parseDigitsBE_cons (c : Char) (t : List Char) :
    parseDigitsBE (c :: t) = charVal c * 10 ^ t.length + parseDigitsBE t := by
  show List.foldl _ (0 * 10 + charVal c) t = _
  rw [parseDigitsBE_foldl_init]
  ring_nf

theorem parseDigitsBE_replicate_zero (z : Nat) :
    parseDigitsBE (List.replicate z (digitChar 0)) = 0 := by
  induction z with
  | zero => rfl
  | succ z ih =>
    rw [List.replicate_succ, parseDigitsBE_cons, ih]
    have h0 : charVal (digitChar 0) = 0 := by decide
    rw [h0]
    simp

theorem parseDigitsBE_padDigits (p : Nat) (cs : List Char) :
    parseDigitsBE (padDigits p cs) = parseDigitsBE cs := by
  unfold padDigits
  rw [parseDigitsBE_append, parseDigitsBE_replicate_zero]
  simp

theorem padDigits_length (p : Nat) (cs : List Char) (h : cs.length ≤ p) :
    (padDigits p cs).length = p := by
  unfold padDigits
  simp
  omega

theorem padDigits_digits (p : Nat) (cs : List Char) (h : ∀ c ∈ cs, isDigitChar c = true) :
    ∀ c ∈ padDigits p cs, isDigitChar c = true := by
  intro c hc
  unfold padDigits at hc
  rw [List.mem_append] at hc
  rcases hc with hc | hc
  · rw [List.eq_of_mem_replicate hc]; decide
  · exact h c hc

theorem trimZeros_decomp (cs : List Char) :
    cs = trimZeros cs ++ List.replicate (cs.length - (trimZeros cs).length) (digitChar 0) ∧
      (trimZeros cs).length ≤ cs.length := by
  unfold trimZeros
  have hsplit : cs.reverse.takeWhile (fun c => c = digitChar 0) ++
      cs.reverse.dropWhile (fun c => c = digitChar 0) = cs.reverse :=
    List.takeWhile_append_dropWhile _ _
  set T := cs.reverse.takeWhile (fun c => c = digitChar 0) with hT
  set D := cs.reverse.dropWhile (fun c => c = digitChar 0) with hD
  have hcs : cs = D.reverse ++ T.reverse := by
    have : cs.reverse.reverse = (T ++ D).reverse := by rw [hsplit]
    simpa [List.reverse_append] using this
  have hTrep : T.reverse = List.replicate T.reverse.length (digitChar 0) := by
    rw [List.eq_replicate_iff]
    refine ⟨rfl, ?_⟩
    intro c hc
    have hc2 : c ∈ T := List.mem_reverse.mp hc
    have := List.mem_takeWhile_imp hc2
    simpa using this
  have hlen : D.reverse.length ≤ cs.length := by
    have h1 : T.length + D.length = cs.reverse.length := by
      rw [← List.length_append, hsplit]
    simp at h1 ⊢
    omega
  constructor
  · conv_lhs => rw [hcs]
    congr 1
    rw [hTrep]
    congr 1
    have h1 : T.length + D.length = cs.reverse.length := by
      rw [← List.length_append, hsplit]
    simp at h1 ⊢
    omega
  · exact hlen

theorem trimZeros_sublist (cs : List Char) : List.Sublist (trimZeros cs) cs := by
  unfold trimZeros
  have h : List.Sublist (cs.reverse.dropWhile (fun c => c = digitChar 0)) cs.reverse :=
    List.dropWhile_sublist _
  simpa using h.reverse

theorem trimZeros_digits (cs : List Char) (h : ∀ c ∈ cs, isDigitChar c = true) :
    ∀ c ∈ trimZeros cs, isDigitChar c = true := by
  intro c hc
  exact h c ((trimZeros_sublist cs).subset hc)

theorem parseDigitsBE_trimZeros (cs : List Char) :
    parseDigitsBE cs =
      parseDigitsBE (trimZeros cs) * 10 ^ (cs.length - (trimZeros cs).length) := by
  obtain ⟨hdec, _⟩ := trimZeros_decomp cs
  conv_lhs => rw [hdec]
  rw [parseDigitsBE_append, parseDigitsBE_replicate_zero]
  simp

theorem natToCharsAux_length : ∀ fuel n k, n < 10 ^ k →
    (natToCharsAux fuel n).length ≤ k := by
  intro fuel
  induction fuel with
  | zero => intro n k _; simp [natToCharsAux]
  | succ fuel ih =>
    intro n k hk
    by_cases h0 : n = 0
    · simp [natToCharsAux, h0]
    · rw [natToCharsAux, if_neg h0]
      have hk1 : 1 ≤ k := by
        by_contra hc
        have : k = 0 := by omega
        subst this
        simp at hk
        omega
      have hdiv : n / 10 < 10 ^ (k - 1) := by
        have h10 : (10 : Nat) ^ k = 10 ^ (k - 1) * 10 := by
          conv_lhs => rw [show k = (k - 1) + 1 by omega]
          ring
        rw [Nat.div_lt_iff_lt_mul (by omega)]
        omega
      have := ih (n / 10) (k - 1) hdiv
      simp
      omega

theorem natToChars_length (n k : Nat) (h1 : 1 ≤ k) (h2 : n < 10 ^ k) :
    (natToChars n).length ≤ k := by
  unfold natToChars
  by_cases h0 : n = 0
  · simp [h0]; omega
  · rw [if_neg h0]
    simpa using natToCharsAux_length n n k h2

theorem takeWhile_append_stop {p : Char → Bool} (xs : List Char) (y : Char) (ys : List Char)
    (hxs : ∀ x ∈ xs, p x = true) (hy : p y = false) :
    (xs ++ y :: ys).takeWhile p = xs ∧ (xs ++ y :: ys).dropWhile p = y :: ys := by
  induction xs with
  | nil => simp [List.takeWhile, List.dropWhile, hy]
  | cons a xs ih =>
    have ha : p a = true := hxs a (by simp)
    have ih2 := ih (fun x hx => hxs x (by simp [hx]))
    simp [List.takeWhile, List.dropWhile, ha, ih2.1, ih2.2]

theorem isDigitChar_ne_hyphen {c : Char} (h : isDigitChar c = true) : c ≠ hyphenChar := by
  intro he
  subst he
  simp [isDigitChar, hyphenChar] at h

theorem isDigitChar_ne_dot {c : Char} (h : isDigitChar c = true) : c ≠ dotChar := by
  intro he
  subst he
  simp [isDigitChar, dotChar] at h

theorem parseFloat?_structured (neg : Bool) (I F2 : List Char)
    (hI : I ≠ []) (hIdig : ∀ c ∈ I, isDigitChar c = true)
    (hF : F2 ≠ []) (hFdig : ∀ c ∈ F2, isDigitChar c = true) :
    parseFloat? ((if neg then [hyphenChar] else []) ++ I ++ dotChar :: F2) =
      some ⟨(if neg then -((parseDigitsBE I * 10 ^ F2.length + parseDigitsBE F2 : Nat) : Int)
             else ((parseDigitsBE I * 10 ^ F2.length + parseDigitsBE F2 : Nat) : Int)),
            F2.length⟩ := by
  have hdotnd : isDigitChar dotChar = false := by decide
  obtain ⟨tw, dw⟩ := takeWhile_append_stop I dotChar F2 hIdig hdotnd
  have hallF : F2.all isDigitChar = true := List.all_eq_true.mpr hFdig
  cases neg with
  | false =>
    obtain ⟨c, I2, rfl⟩ : ∃ c I2, I = c :: I2 := by
      cases I with
      | nil => exact absurd rfl hI
      | cons c I2 => exact ⟨c, I2, rfl⟩
    have hcd : isDigitChar c = true := hIdig c (by simp)
    have hch : (c = hyphenChar) = False := by
      simp [isDigitChar_ne_hyphen hcd]
    simp only [if_neg (by simp : ¬False), Bool.false_eq_true, List.nil_append,
      List.cons_append]
    rw [List.cons_append] at tw dw
    unfold parseFloat?
    simp only [hch, decide_False, Bool.false_eq_true, if_neg, ite_false]
    rw [tw, dw]
    simp [hI, hF, hallF]
  | true =>
    simp only [ite_true, List.cons_append, List.nil_append]
    unfold parseFloat?
    simp only [decide_True, List.tail_cons, ite_true, decide_eq_true_eq]
    rw [tw, dw]
    simp [hI, hF, hallF]

theorem fracCharsOf_digits (F p : Nat) : ∀ c ∈ fracCharsOf F p, isDigitChar c = true := by
  simp only [fracCharsOf]
  split
  · intro c hc; simp at hc; subst hc; decide
  · exact trimZeros_digits _ (padDigits_digits _ _ (natToChars_digits F))

theorem fracCharsOf_ne_nil (F p : Nat) : fracCharsOf F p ≠ [] := by
  simp only [fracCharsOf]
  split
  · simp
  · assumption

/-- Value/length facts about the fractional rendering: writing `t` for its
length and `fv` for its digit value, either `t ≤ p` and `fv * 10 ^ (p - t)`
recovers `F`, or `p = 0` and the fraction is the single digit `0`. -/
theorem fracCharsOf_val (F p : Nat) (h : F < 10 ^ p) :
    (1 ≤ p ∧ (fracCharsOf F p).length ≤ p ∧
      parseDigitsBE (fracCharsOf F p) * 10 ^ (p - (fracCharsOf F p).length) = F) ∨
    (p = 0 ∧ fracCharsOf F p = [digitChar 0]) := by
  by_cases hp0 : p = 0
  · right
    refine ⟨hp0, ?_⟩
    subst hp0
    have hF0 : F = 0 := by simpa using h
    subst hF0
    decide
  · left
    have hp1 : 1 ≤ p := by omega
    have hlen : (natToChars F).length ≤ p := natToChars_length F p hp1 h
    have hpadlen : (padDigits p (natToChars F)).length = p := padDigits_length _ _ hlen
    have hpadval : parseDigitsBE (padDigits p (natToChars F)) = F := by
      rw [parseDigitsBE_padDigits, parseDigitsBE_natToChars]
    have htrim := parseDigitsBE_trimZeros (padDigits p (natToChars F))
    have hsub : (trimZeros (padDigits p (natToChars F))).length ≤ p :=
      le_trans (trimZeros_sublist _).length_le (le_of_eq hpadlen)
    simp only [fracCharsOf]
    split
    · -- trimmed fraction empty: all fractional digits were zero, F = 0
      rename_i hfe
      rw [hpadval, hfe] at htrim
      have hF0 : F = 0 := by simpa [parseDigitsBE] using htrim
      refine ⟨hp1, by simpa using hp1, ?_⟩
      have hz : parseDigitsBE [digitChar 0] = 0 := by decide
      rw [hz, hF0]
      simp
    · refine ⟨hp1, hsub, ?_⟩
      rw [hpadval, hpadlen] at htrim
      exact htrim.symm

theorem roundDecNum_signed (M t p : Nat) (neg : Bool) (n : Int)
    (hmag : (if t ≤ p then M * 10 ^ (p - t)
             else (2 * M + 10 ^ (t - p)) / (2 * 10 ^ (t - p))) = n.natAbs)
    (hsign : if neg then n < 0 ∧ 1 ≤ M else 0 ≤ n) :
    roundDecNum ⟨if neg then -(M : Int) else (M : Int), t⟩ p = n := by
  cases neg
  · simp only [Bool.false_eq_true, if_false] at hsign ⊢
    simp only [roundDecNum, Int.natAbs_ofNat]
    rw [if_neg (by omega : ¬ ((M : Int) < 0))]
    rw [hmag]
    omega
  · simp only [if_true] at hsign ⊢
    obtain ⟨hn, hM⟩ := hsign
    simp only [roundDecNum, Int.natAbs_neg, Int.natAbs_ofNat]
    rw [if_pos (by omega : (-(M : Int)) < 0)]
    rw [hmag]
    omega

theorem renderFixed_roundtrip (n : Int) (p : Nat) :
    ∃ d, parseFloat? (renderFixed n p) = some d ∧ roundDecNum d p = n := by
  have hpow : 0 < (10 : Nat) ^ p := Nat.pos_pow_of_pos _ (by omega)
  have hFlt : n.natAbs % 10 ^ p < 10 ^ p := Nat.mod_lt _ hpow
  have hmval : n.natAbs = n.natAbs / 10 ^ p * 10 ^ p + n.natAbs % 10 ^ p :=
    (Nat.div_add_mod' _ _).symm
  have hparse := parseFloat?_structured (decide (n < 0))
    (natToChars (n.natAbs / 10 ^ p)) (fracCharsOf (n.natAbs % 10 ^ p) p)
    (natToChars_ne_nil _) (natToChars_digits _)
    (fracCharsOf_ne_nil _ _) (fracCharsOf_digits _ _)
  rw [parseDigitsBE_natToChars] at hparse
  have hshape : renderFixed n p =
      (if decide (n < 0) = true then [hyphenChar] else []) ++
        natToChars (n.natAbs / 10 ^ p) ++
        dotChar :: fracCharsOf (n.natAbs % 10 ^ p) p := by
    rw [renderFixed]
    by_cases h : n < 0 <;> simp [h]
  refine ⟨_, by rw [hshape]; exact hparse, ?_⟩
  -- notation
  generalize hip : n.natAbs / 10 ^ p = ip at *
  generalize hF : n.natAbs % 10 ^ p = F at *
  generalize hfv : parseDigitsBE (fracCharsOf F p) = fv at *
  generalize ht : (fracCharsOf F p).length = t at *
  have hval := fracCharsOf_val F p hFlt
  rw [hfv, ht] at hval
  have hmageq :
      (if t ≤ p then (ip * 10 ^ t + fv) * 10 ^ (p - t)
       else (2 * (ip * 10 ^ t + fv) + 10 ^ (t - p)) / (2 * 10 ^ (t - p))) = n.natAbs := by
    rcases hval with ⟨hp1, hle, hrec⟩ | ⟨hp0, hfrac⟩
    · rw [if_pos hle]
      have hsplit : (10 : Nat) ^ p = 10 ^ t * 10 ^ (p - t) := by
        rw [← pow_add]
        congr 1
        omega
      calc (ip * 10 ^ t + fv) * 10 ^ (p - t)
          = ip * (10 ^ t * 10 ^ (p - t)) + fv * 10 ^ (p - t) := by ring
        _ = ip * 10 ^ p + F := by rw [← hsplit, hrec]
        _ = n.natAbs := by omega
    · -- p = 0, fraction rendered as the single digit 0, t = 1, fv = 0
      subst hp0
      have ht1 : t = 1 := by rw [← ht, hfrac]; rfl
      have hfv0 : fv = 0 := by
        rw [← hfv, hfrac]; decide
      have hF0 : F = 0 := by simpa using hFlt
      subst ht1
      rw [if_neg (by omega)]
      have h1 : (2 * (ip * 10 ^ 1 + fv) + 10 ^ (1 - 0)) = 20 * ip + 10 := by
        rw [hfv0]; ring
      have h2 : (2 * 10 ^ (1 - 0) : Nat) = 20 := by norm_num
      rw [h1, h2]
      simp at hmval
      omega
  -- conclude by sign analysis
  apply roundDecNum_signed _ _ _ _ _ hmageq
  by_cases hn : n < 0
  · have hmpos : 1 ≤ n.natAbs := by omega
    have hMpos : 1 ≤ ip * 10 ^ t + fv := by
      have hpow10t : 1 ≤ (10 : Nat) ^ t := Nat.pos_pow_of_pos _ (by omega)
      rcases hval with ⟨hp1, hle, hrec⟩ | ⟨hp0, hfrac⟩
      · by_cases hip0 : ip = 0
        · subst hip0
          have hF1 : 1 ≤ F := by omega
          have hfv1 : 1 ≤ fv := by
            by_contra hc
            have : fv = 0 := by omega
            rw [this] at hrec
            omega
          omega
        · have h1 : 1 ≤ ip := Nat.pos_of_ne_zero hip0
          have h2 := Nat.mul_le_mul h1 hpow10t
          omega
      · subst hp0
        have hF0 : F = 0 := by simpa using hFlt
        simp at hmval
        have h1 : 1 ≤ ip := by omega
        have h2 := Nat.mul_le_mul h1 hpow10t
        omega
    simp [hn, hMpos]
  · simp [hn]
    omega

/-- Rewrite of one scalar under decimal float normalization: a scalar that is
lexically a float literal is reparsed and re-rendered at fixed precision;
anything else is preserved verbatim. -/
def decFloatRewrite (p : Nat) (cs : List Char) : List Char :=
  match parseFloat? cs with
  | some d => renderFixed (roundDecNum d p) p
  | none => cs

theorem decFloatRewrite_renderFixed (p : Nat) (n : Int) :
    decFloatRewrite p (renderFixed n p) = renderFixed n p := by
  obtain ⟨d, hp, hr⟩ := renderFixed_roundtrip n p
  unfold decFloatRewrite
  rw [hp]
  show renderFixed (roundDecNum d p) p = renderFixed n p
  rw [hr]

theorem decFloatRewrite_fix (p : Nat) (cs : List Char) :
    decFloatRewrite p (decFloatRewrite p cs) = decFloatRewrite p cs := by
  cases h : parseFloat? cs with
  | none =>
    have h1 : decFloatRewrite p cs = cs := by simp only [decFloatRewrite, h]
    rw [h1]
    exact h1
  | some d =>
    have h1 : decFloatRewrite p cs = renderFixed (roundDecNum d p) p := by
      simp only [decFloatRewrite, h]
    rw [h1, decFloatRewrite_renderFixed]

theorem parseNum?_renderFixed (n : Int) (p : Nat) :
    ∃ d, parseNum? (renderFixed n p) = some d ∧ roundDecNum d p = n := by
  obtain ⟨d, hp, hr⟩ := renderFixed_roundtrip n p
  exact ⟨d, by unfold parseNum?; rw [hp], hr⟩

/-! ### Lossless hex-float encoding

The hex-float mode encodes the exact IEEE-754 bit pattern of a float behind
the reserved textual mark `0x`, which no decimal float literal can start
with. -/

def xChar : Char := Char.ofNat 120

def hexDigitChar (d : Nat) : Char :=
  if d < 10 then Char.ofNat (48 + d) else Char.ofNat (87 + d)

def hexCharVal (c : Char) : Nat :=
  if c.toNat ≤ 57 then c.toNat - 48 else c.toNat - 87

def isHexDigit (c : Char) : Bool :=
  (48 ≤ c.toNat && c.toNat ≤ 57) || (97 ≤ c.toNat && c.toNat ≤ 102)

/-- Little-endian hex digit characters, fixed width `k`. -/
def hexCharsLE : Nat → Nat → List Char
  | 0, _ => []
  | k + 1, n => hexDigitChar (n % 16) :: hexCharsLE k (n / 16)

def parseHexBE (cs : List Char) : Nat :=
  cs.foldl (fun a c => a * 16 + hexCharVal c) 0

/-- Encode a `w`-bit IEEE-754 bit pattern as `0x` followed by `w / 4`
lowercase hex digits. -/
def encodeHexBits (w : Nat) (bits : Nat) : List Char :=
  digitChar 0 :: xChar :: (hexCharsLE (w / 4) bits).reverse

/-- Decode a hex-float literal back to the exact `w`-bit pattern. -/
def decodeHexBits (w : Nat) (cs : List Char) : Option Nat :=
  match cs with
  | c0 :: c1 :: rest =>
      if c0 = digitChar 0 ∧ c1 = xChar ∧ rest.length = w / 4 ∧ rest.all isHexDigit then
        some (parseHexBE rest)
      else none
  | _ => none

theorem hexDigitChar_val {d : Nat} (h : d < 16) : hexCharVal (hexDigitChar d) = d := by
  interval_cases d <;> decide

theorem hexDigitChar_isHex {d : Nat} (h : d < 16) : isHexDigit (hexDigitChar d) = true := by
  interval_cases d <;> decide

theorem parseHexBE_snoc (xs : List Char) (c : Char) :
    parseHexBE (xs ++ [c]) = parseHexBE xs * 16 + hexCharVal c := by
  simp [parseHexBE, List.foldl_append]

theorem hexCharsLE_spec : ∀ k n, n < 16 ^ k →
    parseHexBE (hexCharsLE k n).reverse = n ∧
    (hexCharsLE k n).length = k ∧
    ∀ c ∈ hexCharsLE k n, isHexDigit c = true := by
  intro k
  induction k with
  | zero =>
    intro n hn
    interval_cases n
    exact ⟨rfl, rfl, by simp [hexCharsLE]⟩
  | succ k ih =>
    intro n hn
    have hdiv : n / 16 < 16 ^ k := by
      rw [Nat.div_lt_iff_lt_mul (by omega)]
      calc n < 16 ^ (k + 1) := hn
        _ = 16 ^ k * 16 := by ring
    obtain ⟨ihv, ihl, ihd⟩ := ih (n / 16) hdiv
    refine ⟨?_, by simp [hexCharsLE, ihl], ?_⟩
    · show parseHexBE ((hexDigitChar (n % 16) :: hexCharsLE k (n / 16)).reverse) = n
      rw [List.reverse_cons, parseHexBE_snoc, ihv,
        hexDigitChar_val (Nat.mod_lt _ (by omega))]
      omega
    · intro c hc
      simp only [hexCharsLE, List.mem_cons] at hc
      rcases hc with rfl | hc
      · exact hexDigitChar_isHex (Nat.mod_lt _ (by omega))
      · exact ihd c hc

/-- The hex-float codec round-trips every bit pattern of width `w` exactly,
provided `w` is a multiple of 4 (in particular for widths 32 and 64). -/
theorem decodeHexBits_encodeHexBits (w : Nat) (bits : Nat)
    (hw : w % 4 = 0) (hb : bits < 2 ^ w) :
    decodeHexBits w (encodeHexBits w bits) = some bits := by
  have hb16 : bits < 16 ^ (w / 4) := by
    have h1 : (16 : Nat) ^ (w / 4) = 2 ^ (4 * (w / 4)) := by
      rw [pow_mul]
      norm_num
    have h2 : 4 * (w / 4) = w := by omega
    rw [h1, h2]
    exact hb
  obtain ⟨hv, hl, hd⟩ := hexCharsLE_spec (w / 4) bits hb16
  have hstep : decodeHexBits w (encodeHexBits w bits) =
      if digitChar 0 = digitChar 0 ∧ xChar = xChar ∧
         (hexCharsLE (w / 4) bits).reverse.length = w / 4 ∧
         (hexCharsLE (w / 4) bits).reverse.all isHexDigit = true then
        some (parseHexBE (hexCharsLE (w / 4) bits).reverse)
      else none := rfl
  rw [hstep, if_pos, hv]
  refine ⟨rfl, rfl, by simpa using hl, ?_⟩
  rw [List.all_eq_true]
  intro c hc
  exact hd c (List.mem_reverse.mp hc)

/-- Number of binary digits of `n` (with fuel). -/
def natBitsLen : Nat → Nat → Nat
  | 0, _ => 0
  | f + 1, n => if n = 0 then 0 else natBitsLen f (n / 2) + 1

/-- Round `a / b` to the nearest integer, ties to even. -/
def roundNearestEven (a b : Nat) : Nat :=
  let q := a / b
  let r := a % b
  if 2 * r < b then q
  else if b < 2 * r then q + 1
  else if q % 2 = 0 then q else q + 1

/-- Decide `2 ^ e ≤ a / s` for an integer exponent `e`. -/
def pow2LeRatio (e : Int) (a s : Nat) : Bool :=
  if 0 ≤ e then 2 ^ e.toNat * s ≤ a else s ≤ a * 2 ^ (-e).toNat

def adjustExpUp : Nat → Int → Nat → Nat → Int
  | 0, e, _, _ => e
  | f + 1, e, a, s => if pow2LeRatio (e + 1) a s then adjustExpUp f (e + 1) a s else e

def adjustExpDown : Nat → Int → Nat → Nat → Int
  | 0, e, _, _ => e
  | f + 1, e, a, s => if pow2LeRatio e a s then e else adjustExpDown f (e - 1) a s

/-- Modelled from the spec: the missing normalizer's conversion of a decimal
float literal to the exact IEEE-754 binary64 bit pattern (round to nearest,
ties to even), used by the lossless hex-float mode. -/
def decToBits64 (d : Dec) : Nat :=
  let negBit : Nat := if d.num < 0 then 2 ^ 63 else 0
  let a := d.num.natAbs
  let s := 10 ^ d.scale
  if a = 0 then negBit
  else
    let e0 : Int := (natBitsLen a a : Int) - (natBitsLen s s : Int)
    let e := adjustExpDown 2200 (adjustExpUp 2200 e0 a s) a s
    if 1024 ≤ e then negBit + 2047 * 2 ^ 52
    else
      let eEff : Int := if e < -1022 then -1022 else e
      let shift : Int := 52 - eEff
      let mant :=
        if 0 ≤ shift then roundNearestEven (a * 2 ^ shift.toNat) s
        else roundNearestEven a (s * 2 ^ (-shift).toNat)
      if e < -1022 then negBit + mant
      else if mant < 2 ^ 53 then negBit + (e + 1022).toNat * 2 ^ 52 + (mant - 2 ^ 52)
      else if 1024 ≤ e + 1 then negBit + 2047 * 2 ^ 52
      else negBit + (e + 1024).toNat * 2 ^ 52

/-- Modelled from the spec: hex-float mode rewrite of one scalar — an already
hex-encoded scalar is decoded and re-encoded (a bit-exact round trip), a
decimal float literal is converted to its binary64 bit pattern and encoded,
anything else is preserved verbatim. -/
def hexFloatRewrite (cs : List Char) : List Char :=
  match decodeHexBits 64 cs with
  | some b => encodeHexBits 64 b
  | none =>
      match parseFloat? cs with
      | some d => encodeHexBits 64 (decToBits64 d)
      | none => cs

/-! ### The document model

Modelled from the spec (`prefab_tool.parser` is not in the source tree):
a Value is a scalar retaining its original lexical form, an ordered sequence,
or an ordered mapping; a Reference is a Mapping recognized by its key set,
not a separate constructor.  The mutual inductive lists keep all recursion
structural so that everything evaluates in the kernel. -/

mutual
inductive Value where
  | scalar : String → Value
  | seq : VList → Value
  | vmap : EList → Value
  deriving DecidableEq
inductive VList where
  | nil : VList
  | cons : Value → VList → VList
  deriving DecidableEq
inductive EList where
  | nil : EList
  | cons : String → Value → EList → EList
  deriving DecidableEq
end

def EList.lookup? : EList → String → Option Value
  | .nil, _ => none
  | .cons k v t, key => if k = key then some v else EList.lookup? t key

def EList.keys : EList → List String
  | .nil => []
  | .cons k _ t => k :: EList.keys t

def EList.hasKey (l : EList) (key : String) : Bool :=
  match l.lookup? key with
  | some _ => true
  | none => false

/-- Membership of a value in a `VList`. -/
def VList.vmem (x : Value) : VList → Prop
  | .nil => False
  | .cons v t => x = v ∨ VList.vmem x t

/-- An Object: integer class tag, class name, fileID, stripped flag and
ordered content mapping. -/
structure UnityYAMLObject where
  class_id : Nat
  class_name : String
  file_id : Int
  stripped : Bool
  content : EList
  deriving DecidableEq

/-- A parsed document: the ordered sequence of objects (the fileID index is
derived by lookup). -/
structure UnityYAMLDocument where
  objects : List UnityYAMLObject
  deriving DecidableEq

/-! ### The normalizer (modelled from the spec) -/

/-- Modelled from the spec: the missing `prefab_tool.normalizer` options
record, with the defaults used by `UnityPrefabNormalizer()` in the CLI. -/
structure UnityPrefabNormalizer where
  sort_documents : Bool := true
  sort_modifications : Bool := true
  normalize_floats : Bool := true
  use_hex_floats : Bool := false
  normalize_quaternions : Bool := true
  float_precision : Nat := 6
  deriving DecidableEq

/-- Float normalization of one scalar. -/
def floatStep (o : UnityPrefabNormalizer) (s : String) : String :=
  if o.normalize_floats then
    if o.use_hex_floats then String.mk (hexFloatRewrite s.data)
    else String.mk (decFloatRewrite o.float_precision s.data)
  else s

/-- The explicit allow-list of rotation-bearing property names. -/
def rotationKeys : List String := ["m_LocalRotation", "m_Rotation"]

/-- The four scalar components of an `{x, y, z, w}` mapping, if the value has
exactly that shape. -/
def getQuadScalars : Value → Option (String × String × String × String)
  | .vmap (.cons kx (.scalar sx) (.cons ky (.scalar sy) (.cons kz (.scalar sz)
      (.cons kw (.scalar sw) .nil)))) =>
      if kx = "x" ∧ ky = "y" ∧ kz = "z" ∧ kw = "w" then some (sx, sy, sz, sw) else none
  | _ => none

/-- Unit-magnitude check within floating tolerance `1 / 1000`, on component
numerators at scale `p`: `|Σ nᵢ² - 10 ^ 2p| * 1000 ≤ 10 ^ 2p`. -/
def quatTolOK (nx ny nz nw : Int) (p : Nat) : Bool :=
  1000 * |nx ^ 2 + ny ^ 2 + nz ^ 2 + nw ^ 2 - 10 ^ (2 * p)| ≤ 10 ^ (2 * p)

def firstNonzeroNeg : List Int → Bool
  | [] => false
  | x :: t => if x = 0 then firstNonzeroNeg t else x < 0

/-- Is the canonical representative the negation?  (`w < 0`, ties at `w = 0`
broken by the sign of the first nonzero of x, y, z.) -/
def quatFlipB (nx ny nz nw : Int) : Bool :=
  nw < 0 || (nw = 0 && firstNonzeroNeg [nx, ny, nz])

def mkQuad (p : Nat) (nx ny nz nw : Int) : Value :=
  .vmap (.cons "x" (.scalar (String.mk (renderFixed nx p)))
        (.cons "y" (.scalar (String.mk (renderFixed ny p)))
        (.cons "z" (.scalar (String.mk (renderFixed nz p)))
        (.cons "w" (.scalar (String.mk (renderFixed nw p))) .nil))))

/-- Quaternion canonicalization of the value stored at property name `k`:
applies only under the allow-list, only to a four-scalar `{x,y,z,w}` mapping
whose components are numeric and of unit magnitude within tolerance;
otherwise the value is preserved verbatim. -/
def quatStep (o : UnityPrefabNormalizer) (k : String) (v : Value) : Value :=
  if o.normalize_quaternions = true ∧ k ∈ rotationKeys then
    match getQuadScalars v with
    | some (sx, sy, sz, sw) =>
        match parseNum? sx.data, parseNum? sy.data, parseNum? sz.data, parseNum? sw.data with
        | some dx, some dy, some dz, some dw =>
            let p := o.float_precision
            let nx := roundDecNum dx p
            let ny := roundDecNum dy p
            let nz := roundDecNum dz p
            let nw := roundDecNum dw p
            if quatTolOK nx ny nz nw p then
              if quatFlipB nx ny nz nw then mkQuad p (-nx) (-ny) (-nz) (-nw)
              else mkQuad p nx ny nz nw
            else v
        | _, _, _, _ => v
    | none => v
  else v

/-- Sort key of one `m_Modifications` entry: (referenced target fileID,
property path string). -/
def modSortKey (v : Value) : Int × String :=
  match v with
  | .vmap l =>
      let fid : Int :=
        match l.lookup? "target" with
        | some (.vmap r) =>
            match r.lookup? "fileID" with
            | some (.scalar s) => (parseInt? s.data).getD 0
            | _ => 0
        | _ => 0
      let path : String :=
        match l.lookup? "propertyPath" with
        | some (.scalar s) => s
        | _ => ""
      (fid, path)
  | _ => (0, "")

def keyLeB (a b : Int × String) : Bool :=
  a.1 < b.1 || (a.1 = b.1 && a.2 ≤ b.2)

def VList.insertByKey (v : Value) : VList → VList
  | .nil => .cons v .nil
  | .cons w t =>
      if keyLeB (modSortKey v) (modSortKey w) then .cons v (.cons w t)
      else .cons w (VList.insertByKey v t)

/-- Stable insertion sort of a modification list by `modSortKey`. -/
def VList.sortByKey : VList → VList
  | .nil => .nil
  | .cons v t => VList.insertByKey v (VList.sortByKey t)

def VList.sortedByKey : VList → Bool
  | .nil => true
  | .cons _ .nil => true
  | .cons v (.cons w t) =>
      keyLeB (modSortKey v) (modSortKey w) && VList.sortedByKey (.cons w t)

/-- Modification-list sorting of the value stored at property name `k`. -/
def modStep (o : UnityPrefabNormalizer) (k : String) (v : Value) : Value :=
  if o.sort_modifications = true ∧ k = "m_Modifications" then
    match v with
    | .seq l => .seq (VList.sortByKey l)
    | _ => v
  else v

mutual
def normVal (o : UnityPrefabNormalizer) : Value → Value
  | .scalar s => .scalar (floatStep o s)
  | .seq l => .seq (normVList o l)
  | .vmap l => .vmap (normEList o l)
def normVList (o : UnityPrefabNormalizer) : VList → VList
  | .nil => .nil
  | .cons v t => .cons (normVal o v) (normVList o t)
def normEList (o : UnityPrefabNormalizer) : EList → EList
  | .nil => .nil
  | .cons k v t => .cons k (quatStep o k (modStep o k (normVal o v))) (normEList o t)
end

/-- Normalization of the value stored at property name `k`: recursive
normalization, then modification-list sorting, then quaternion
canonicalization. -/
def normEntry (o : UnityPrefabNormalizer) (k : String) (v : Value) : Value :=
  quatStep o k (modStep o k (normVal o v))

theorem normEList_cons (o : UnityPrefabNormalizer) (k : String) (v : Value) (t : EList) :
    normEList o (.cons k v t) = .cons k (normEntry o k v) (normEList o t) := rfl

def normObj (o : UnityPrefabNormalizer) (ob : UnityYAMLObject) : UnityYAMLObject :=
  { ob with content := normEList o ob.content }

def objFileLe (a b : UnityYAMLObject) : Prop := a.file_id ≤ b.file_id

instance : DecidableRel objFileLe := fun a b => by unfold objFileLe; infer_instance

instance : IsTotal UnityYAMLObject objFileLe :=
  ⟨fun a b => le_total a.file_id b.file_id⟩

instance : IsTrans UnityYAMLObject objFileLe :=
  ⟨fun _ _ _ hab hbc => le_trans hab hbc⟩

/-- Modelled from the spec: the missing normalizer's document-level
`normalize` — every object's content is normalized, and with `sort_documents`
the objects are stably reordered by fileID ascending. -/
def normalizeDoc (o : UnityPrefabNormalizer) (d : UnityYAMLDocument) : UnityYAMLDocument :=
  let objs := d.objects.map (normObj o)
  ⟨if o.sort_documents then List.insertionSort objFileLe objs else objs⟩

/-! ### Idempotence of the normalizer -/

theorem floatStep_fix (o : UnityPrefabNormalizer) (hhex : o.use_hex_floats = false)
    (s : String) : floatStep o (floatStep o s) = floatStep o s := by
  unfold floatStep
  rw [hhex]
  by_cases hnf : o.normalize_floats = true
  · simp only [hnf, if_true, Bool.false_eq_true, if_false]
    congr 1
    show decFloatRewrite o.float_precision (decFloatRewrite o.float_precision s.data) =
      decFloatRewrite o.float_precision s.data
    exact decFloatRewrite_fix _ _
  · simp only [if_neg hnf]

theorem floatStep_renderFixed (o : UnityPrefabNormalizer) (hhex : o.use_hex_floats = false)
    (n : Int) : floatStep o (String.mk (renderFixed n o.float_precision)) =
      String.mk (renderFixed n o.float_precision) := by
  unfold floatStep
  rw [hhex]
  by_cases hnf : o.normalize_floats = true
  · simp only [hnf, if_true, Bool.false_eq_true, if_false]
    congr 1
    show decFloatRewrite o.float_precision (renderFixed n o.float_precision) =
      renderFixed n o.float_precision
    exact decFloatRewrite_renderFixed _ _
  · simp only [if_neg hnf]

theorem quatStep_scalar (o : UnityPrefabNormalizer) (k : String) (s : String) :
    quatStep o k (.scalar s) = .scalar s := by
  unfold quatStep
  split
  · rfl
  · rfl

theorem quatStep_seq (o : UnityPrefabNormalizer) (k : String) (l : VList) :
    quatStep o k (.seq l) = .seq l := by
  unfold quatStep
  split
  · rfl
  · rfl

theorem modStep_scalar (o : UnityPrefabNormalizer) (k : String) (s : String) :
    modStep o k (.scalar s) = .scalar s := by
  unfold modStep
  split
  · rfl
  · rfl

theorem modStep_vmap (o : UnityPrefabNormalizer) (k : String) (l : EList) :
    modStep o k (.vmap l) = .vmap l := by
  unfold modStep
  split
  · rfl
  · rfl

/-! Stable-sort theory for modification lists. -/

theorem keyLeB_total (a b : Int × String) : keyLeB a b = true ∨ keyLeB b a = true := by
  unfold keyLeB
  rcases lt_trichotomy a.1 b.1 with h | h | h
  · left; simp [h]
  · rcases le_total a.2 b.2 with h2 | h2
    · left; simp [h, h2]
    · right; simp [h.symm, h2]
  · right; simp [h]

theorem keyLeB_trans {a b c : Int × String} (hab : keyLeB a b = true)
    (hbc : keyLeB b c = true) : keyLeB a c = true := by
  unfold keyLeB at *
  simp only [Bool.or_eq_true, Bool.and_eq_true, decide_eq_true_eq] at *
  rcases hab with h | ⟨e, h⟩ <;> rcases hbc with h' | ⟨e', h'⟩
  · left; exact h.trans h'
  · left; exact e' ▸ h
  · left; exact e ▸ h'
  · right; exact ⟨e.trans e', h.trans h'⟩

theorem VList.sortedByKey_cons {v w : Value} {t : VList}
    (h : VList.sortedByKey (.cons v (.cons w t)) = true) :
    keyLeB (modSortKey v) (modSortKey w) = true ∧
      VList.sortedByKey (.cons w t) = true := by
  unfold VList.sortedByKey at h
  exact Bool.and_eq_true_iff.mp h

theorem VList.insertByKey_sorted (v : Value) : ∀ l : VList,
    VList.sortedByKey l = true → VList.sortedByKey (VList.insertByKey v l) = true
  | .nil => by intro _; rfl
  | .cons w t => by
    intro hs
    have ih := VList.insertByKey_sorted v t
    unfold VList.insertByKey
    by_cases hle : keyLeB (modSortKey v) (modSortKey w) = true
    · rw [if_pos hle]
      unfold VList.sortedByKey
      rw [hle]
      simpa using hs
    · rw [if_neg hle]
      have hwv : keyLeB (modSortKey w) (modSortKey v) = true := by
        rcases keyLeB_total (modSortKey v) (modSortKey w) with h | h
        · exact absurd h hle
        · exact h
      cases t with
      | nil =>
        show VList.sortedByKey (.cons w (.cons v .nil)) = true
        simp [VList.sortedByKey, hwv]
      | cons u t2 =>
        obtain ⟨hwu, hrest⟩ := VList.sortedByKey_cons hs
        have hins := ih hrest
        unfold VList.insertByKey
        by_cases hvu : keyLeB (modSortKey v) (modSortKey u) = true
        · rw [if_pos hvu]
          show VList.sortedByKey (.cons w (.cons v (.cons u t2))) = true
          unfold VList.sortedByKey
          rw [hwv]
          unfold VList.insertByKey at hins
          rw [if_pos hvu] at hins
          simpa using hins
        · rw [if_neg hvu]
          show VList.sortedByKey (.cons w (.cons u (VList.insertByKey v t2))) = true
          unfold VList.insertByKey at hins
          rw [if_neg hvu] at hins
          unfold VList.sortedByKey
          rw [hwu]
          simpa using hins

theorem VList.sortByKey_sorted : ∀ l : VList,
    VList.sortedByKey (VList.sortByKey l) = true
  | .nil => rfl
  | .cons v t => VList.insertByKey_sorted v _ (VList.sortByKey_sorted t)

theorem VList.sortByKey_of_sorted : ∀ l : VList,
    VList.sortedByKey l = true → VList.sortByKey l = l
  | .nil => by intro _; rfl
  | .cons v t => by
    intro hs
    have ih := VList.sortByKey_of_sorted t
    unfold VList.sortByKey
    cases t with
    | nil => rfl
    | cons w t2 =>
      obtain ⟨hvw, hrest⟩ := VList.sortedByKey_cons hs
      rw [ih hrest]
      unfold VList.insertByKey
      rw [if_pos hvw]

theorem VList.sortByKey_idem (l : VList) :
    VList.sortByKey (VList.sortByKey l) = VList.sortByKey l :=
  VList.sortByKey_of_sorted _ (VList.sortByKey_sorted l)

theorem VList.vmem_insertByKey {x v : Value} : ∀ {l : VList},
    VList.vmem x (VList.insertByKey v l) → x = v ∨ VList.vmem x l
  | .nil => by
    intro h
    simpa [VList.insertByKey, VList.vmem] using h
  | .cons w t => by
    intro h
    have ih := @VList.vmem_insertByKey x v t
    unfold VList.insertByKey at h
    by_cases hle : keyLeB (modSortKey v) (modSortKey w) = true
    · rw [if_pos hle] at h
      unfold VList.vmem at h
      rcases h with h | h
      · exact Or.inl h
      · exact Or.inr h
    · rw [if_neg hle] at h
      unfold VList.vmem at h
      rcases h with h | h
      · exact Or.inr (Or.inl h)
      · rcases ih h with h2 | h2
        · exact Or.inl h2
        · exact Or.inr (Or.inr h2)

theorem VList.vmem_sortByKey {x : Value} : ∀ {l : VList},
    VList.vmem x (VList.sortByKey l) → VList.vmem x l
  | .nil => by intro h; exact h
  | .cons v t => by
    intro h
    have ih := @VList.vmem_sortByKey x t
    unfold VList.sortByKey at h
    rcases VList.vmem_insertByKey h with h2 | h2
    · exact Or.inl h2
    · exact Or.inr (ih h2)

theorem modStep_seq (o : UnityPrefabNormalizer) (k : String) (l : VList)
    (hc : o.sort_modifications = true ∧ k = "m_Modifications") :
    modStep o k (.seq l) = .seq (VList.sortByKey l) := by
  simp only [modStep, if_pos hc]

theorem modStep_idem (o : UnityPrefabNormalizer) (k : String) (v : Value) :
    modStep o k (modStep o k v) = modStep o k v := by
  by_cases hc : o.sort_modifications = true ∧ k = "m_Modifications"
  · cases v with
    | scalar s => rw [modStep_scalar, modStep_scalar]
    | vmap l => rw [modStep_vmap, modStep_vmap]
    | seq l =>
      rw [modStep_seq o k l hc, modStep_seq o k _ hc, VList.sortByKey_idem]
  · simp only [modStep, if_neg hc]

theorem firstNonzeroNeg_neg : ∀ l : List Int, firstNonzeroNeg l = true →
    firstNonzeroNeg (l.map (fun x => -x)) = false := by
  intro l
  induction l with
  | nil => intro h; simp [firstNonzeroNeg] at h
  | cons x t ih =>
    intro h
    unfold firstNonzeroNeg at h ⊢
    by_cases hx : x = 0
    · rw [if_pos hx] at h
      simp only [List.map_cons]
      rw [if_pos (by omega : -x = 0)]
      exact ih h
    · rw [if_neg hx] at h
      simp only [List.map_cons]
      rw [if_neg (by omega : ¬ -x = 0)]
      simp only [decide_eq_true_eq] at h
      simp only [decide_eq_false_iff_not]
      omega

theorem quatFlipB_neg {a b c d : Int} (h : quatFlipB a b c d = true) :
    quatFlipB (-a) (-b) (-c) (-d) = false := by
  unfold quatFlipB at h ⊢
  simp only [Bool.or_eq_true, Bool.and_eq_true, decide_eq_true_eq] at h
  rcases h with h | ⟨h0, hf⟩
  · simp only [Bool.or_eq_false_iff, Bool.and_eq_false_iff]
    constructor
    · simp only [decide_eq_false_iff_not]; omega
    · left; simp only [decide_eq_false_iff_not]; omega
  · have hneg := firstNonzeroNeg_neg [a, b, c] hf
    simp only [List.map_cons, List.map_nil] at hneg
    simp only [Bool.or_eq_false_iff, Bool.and_eq_false_iff]
    constructor
    · simp only [decide_eq_false_iff_not]; omega
    · right; exact hneg

theorem getQuadScalars_mkQuad (p : Nat) (a b c d : Int) :
    getQuadScalars (mkQuad p a b c d) =
      some (String.mk (renderFixed a p), String.mk (renderFixed b p),
        String.mk (renderFixed c p), String.mk (renderFixed d p)) := by
  simp [mkQuad, getQuadScalars]

theorem quatTolOK_neg (a b c d : Int) (p : Nat) :
    quatTolOK (-a) (-b) (-c) (-d) p = quatTolOK a b c d p := by
  have h : (-a) ^ 2 + (-b) ^ 2 + (-c) ^ 2 + (-d) ^ 2 = a ^ 2 + b ^ 2 + c ^ 2 + d ^ 2 := by
    ring
  simp [quatTolOK, h]

theorem quatStep_mkQuad (o : UnityPrefabNormalizer) (k : String) (a b c d : Int)
    (hflip : quatFlipB a b c d = false) :
    quatStep o k (mkQuad o.float_precision a b c d) =
      mkQuad o.float_precision a b c d := by
  unfold quatStep
  split
  · rw [getQuadScalars_mkQuad]
    obtain ⟨da, hpa, hra⟩ := parseNum?_renderFixed a o.float_precision
    obtain ⟨db, hpb, hrb⟩ := parseNum?_renderFixed b o.float_precision
    obtain ⟨dc, hpc, hrc⟩ := parseNum?_renderFixed c o.float_precision
    obtain ⟨dd, hpd, hrd⟩ := parseNum?_renderFixed d o.float_precision
    show (match parseNum? (String.mk (renderFixed a o.float_precision)).data,
        parseNum? (String.mk (renderFixed b o.float_precision)).data,
        parseNum? (String.mk (renderFixed c o.float_precision)).data,
        parseNum? (String.mk (renderFixed d o.float_precision)).data with
      | some dx, some dy, some dz, some dw => _
      | _, _, _, _ => _) = _
    show (match parseNum? (renderFixed a o.float_precision),
        parseNum? (renderFixed b o.float_precision),
        parseNum? (renderFixed c o.float_precision),
        parseNum? (renderFixed d o.float_precision) with
      | some dx, some dy, some dz, some dw => _
      | _, _, _, _ => _) = _
    rw [hpa, hpb, hpc, hpd]
    simp only [hra, hrb, hrc, hrd]
    split
    · rw [if_neg (by rw [hflip]; simp)]
    · rfl
  · rfl

/-- Case analysis for `quatStep`: it either leaves the value unchanged or
produces a canonically-signed rendered quaternion. -/
theorem quatStep_cases (o : UnityPrefabNormalizer) (k : String) (v : Value) :
    quatStep o k v = v ∨
    ∃ a b c d, quatStep o k v = mkQuad o.float_precision a b c d ∧
      quatFlipB a b c d = false := by
  unfold quatStep
  split
  · split
    · split
      · rename_i dx dy dz dw heq4
        dsimp only
        split
        · split
          · rename_i htol hflip
            right
            refine ⟨_, _, _, _, rfl, ?_⟩
            exact quatFlipB_neg (by simpa using hflip)
          · rename_i htol hflip
            right
            refine ⟨_, _, _, _, rfl, ?_⟩
            simpa using hflip
        · left; rfl
      · left; rfl
    · left; rfl
  · left; rfl

theorem quatStep_idem (o : UnityPrefabNormalizer) (k : String) (v : Value) :
    quatStep o k (quatStep o k v) = quatStep o k v := by
  rcases quatStep_cases o k v with h | ⟨a, b, c, d, h, hflip⟩
  · rw [h, h]
  · rw [h]
    exact quatStep_mkQuad o k a b c d hflip

theorem roundDecNum_neg (d : Dec) (p : Nat) :
    roundDecNum ⟨-d.num, d.scale⟩ p = -(roundDecNum d p) := by
  unfold roundDecNum
  dsimp only
  rw [Int.natAbs_neg]
  rcases lt_trichotomy d.num 0 with hn | hn | hn
  · rw [if_pos hn, if_neg (by omega : ¬ -d.num < 0)]
    simp
  · rw [hn]
    have hr : (if d.scale ≤ p then (0:Int).natAbs * 10 ^ (p - d.scale)
        else (2 * (0:Int).natAbs + 10 ^ (d.scale - p)) / (2 * 10 ^ (d.scale - p))) = 0 := by
      split
      · simp
      · simp only [Int.natAbs_zero]
        apply Nat.div_eq_of_lt
        have hq : 0 < 10 ^ (d.scale - p) := Nat.pos_pow_of_pos _ (by omega)
        omega
    rw [hr]
    norm_num
  · rw [if_neg (by omega : ¬ d.num < 0), if_pos (by omega : -d.num < 0)]

theorem roundDecNum_close_int (d : Dec) (p : Nat) :
    2 * |roundDecNum d p * 10 ^ d.scale - d.num * 10 ^ p| ≤ 10 ^ d.scale := by
  unfold roundDecNum
  dsimp only
  by_cases hsp : d.scale ≤ p
  · rw [if_pos hsp]
    have hcast : ∀ s : Int, (if d.num < 0 then -(((d.num.natAbs * 10 ^ (p - d.scale) : Nat)) : Int)
        else ((d.num.natAbs * 10 ^ (p - d.scale) : Nat) : Int)) = d.num * 10 ^ (p - d.scale) := by
      intro s
      rcases le_or_lt 0 d.num with hn | hn
      · rw [if_neg (by omega)]
        push_cast [Int.natAbs_of_nonneg hn]
        ring
      · rw [if_pos hn]
        have : (d.num.natAbs : Int) = -d.num := Int.ofNat_natAbs_of_nonpos (le_of_lt hn)
        push_cast [this]
        ring
    rw [hcast 0]
    have he : d.num * 10 ^ (p - d.scale) * 10 ^ d.scale = d.num * 10 ^ p := by
      rw [mul_assoc, ← pow_add]
      congr 2
      omega
    rw [he, sub_self, abs_zero]
    positivity
  · rw [if_neg hsp]
    have hq0 : 0 < 10 ^ (d.scale - p) := Nat.pos_pow_of_pos _ (by omega)
    have hpow : (10 : Int) ^ d.scale = ((10 ^ (d.scale - p) : Nat) : Int) * 10 ^ p := by
      push_cast
      rw [← pow_add]
      congr 1
      omega
    have hdm := Nat.div_add_mod (2 * d.num.natAbs + 10 ^ (d.scale - p))
      (2 * 10 ^ (d.scale - p))
    have hremlt := Nat.mod_lt (2 * d.num.natAbs + 10 ^ (d.scale - p))
      (show 0 < 2 * 10 ^ (d.scale - p) by omega)
    set q : Nat := 10 ^ (d.scale - p) with hqdef
    set m : Nat := d.num.natAbs with hmdef
    set r : Nat := (2 * m + q) / (2 * q) with hrdef
    set rem : Nat := (2 * m + q) % (2 * q) with hremdef
    -- key integer bound: 2 * |r * q - m| ≤ q
    have hkey : 2 * |(r : Int) * q - m| ≤ (q : Int) := by
      have h1 : 2 * (q : Int) * r + rem = 2 * m + q := by exact_mod_cast hdm
      have h2 : (rem : Int) < 2 * q := by exact_mod_cast hremlt
      have h3 : (0 : Int) ≤ rem := Int.ofNat_nonneg rem
      rcases abs_cases ((r : Int) * q - m) with ⟨he, _⟩ | ⟨he, _⟩ <;> rw [he] <;> linarith
    have h10p : (0 : Int) < 10 ^ p := by positivity
    rcases le_or_lt 0 d.num with hn | hn
    · rw [if_neg (by omega)]
      have hnum : (m : Int) = d.num := Int.natAbs_of_nonneg hn
      have hdiff : (r : Int) * 10 ^ d.scale - d.num * 10 ^ p =
          ((r : Int) * q - m) * 10 ^ p := by
        rw [hpow, hnum]
        ring
      rw [hdiff, abs_mul, abs_of_pos h10p, hpow]
      have := mul_le_mul_of_nonneg_right hkey (le_of_lt h10p)
      linarith [this]
    · rw [if_pos hn]
      have hnum : (m : Int) = -d.num := Int.ofNat_natAbs_of_nonpos (le_of_lt hn)
      have hdiff : -(r : Int) * 10 ^ d.scale - d.num * 10 ^ p =
          -(((r : Int) * q - m) * 10 ^ p) := by
        rw [hpow]
        have : d.num = -(m : Int) := by omega
        rw [this]
        ring
      rw [hdiff, abs_neg, abs_mul, abs_of_pos h10p, hpow]
      have := mul_le_mul_of_nonneg_right hkey (le_of_lt h10p)
      linarith [this]



theorem roundDecNum_close (d : Dec) (p : Nat) :
    |((roundDecNum d p : ℚ)) / 10 ^ p - decVal d| ≤ 1 / (2 * 10 ^ p) := by
  have h := roundDecNum_close_int d p
  rw [decVal]
  have hT : (0:ℚ) < 10 ^ p := by positivity
  have hS : (0:ℚ) < 10 ^ d.scale := by positivity
  rw [div_sub_div _ _ (ne_of_gt hT) (ne_of_gt hS), abs_div,
    abs_of_pos (by positivity : (0:ℚ) < 10 ^ p * 10 ^ d.scale),
    div_le_div_iff₀ (by positivity) (by positivity)]
  have hcast : (2 : ℚ) * |(roundDecNum d p : ℚ) * 10 ^ d.scale - (d.num : ℚ) * 10 ^ p| ≤
      10 ^ d.scale := by
    have h2 : ((2 * |roundDecNum d p * 10 ^ d.scale - d.num * 10 ^ p| : Int) : ℚ) ≤
        ((10 ^ d.scale : Int) : ℚ) := by exact_mod_cast h
    push_cast at h2
    exact h2
  ring_nf at hcast ⊢
  nlinarith [hcast, hT, hS,
    abs_nonneg ((roundDecNum d p : ℚ) * 10 ^ d.scale - (d.num : ℚ) * 10 ^ p),
    mul_le_mul_of_nonneg_left hcast (le_of_lt hT)]



theorem quatTolOK_of_unit (dx dy dz dw : Dec) (p : Nat) (hp : 4 ≤ p)
    (hunit : decVal dx ^ 2 + decVal dy ^ 2 + decVal dz ^ 2 + decVal dw ^ 2 = 1) :
    quatTolOK (roundDecNum dx p) (roundDecNum dy p) (roundDecNum dz p)
      (roundDecNum dw p) p = true := by
  unfold quatTolOK
  rw [decide_eq_true_eq]
  have hT : (0:ℚ) < 10 ^ p := by positivity
  have hT4 : (10000:ℚ) ≤ 10 ^ p := by
    calc (10000:ℚ) = 10 ^ 4 := by norm_num
    _ ≤ 10 ^ p := by exact pow_le_pow_right₀ (by norm_num) hp
  -- numerator-level rounding error is at most 1/2
  have hcomp : ∀ d : Dec, |(roundDecNum d p : ℚ) - 10 ^ p * decVal d| ≤ 1/2 := by
    intro d
    have h := roundDecNum_close d p
    have h2 : |(10:ℚ) ^ p * ((roundDecNum d p : ℚ) / 10 ^ p - decVal d)| ≤
        10 ^ p * (1 / (2 * 10 ^ p)) := by
      rw [abs_mul, abs_of_pos hT]
      exact mul_le_mul_of_nonneg_left h (le_of_lt hT)
    calc |(roundDecNum d p : ℚ) - 10 ^ p * decVal d|
        = |(10:ℚ) ^ p * ((roundDecNum d p : ℚ) / 10 ^ p - decVal d)| := by
          congr 1
          field_simp
      _ ≤ 10 ^ p * (1 / (2 * 10 ^ p)) := h2
      _ = 1/2 := by
          field_simp
          ring
  -- squared-numerator error
  have hsq : ∀ d : Dec, |decVal d| ≤ 1 →
      |(roundDecNum d p : ℚ) ^ 2 - ((10:ℚ) ^ p) ^ 2 * decVal d ^ 2| ≤ 1/4 + 10 ^ p := by
    intro d hv
    have h1 := hcomp d
    have h2 : |(roundDecNum d p : ℚ) + 10 ^ p * decVal d| ≤ 1/2 + 2 * 10 ^ p := by
      have he : (roundDecNum d p : ℚ) + 10 ^ p * decVal d =
          ((roundDecNum d p : ℚ) - 10 ^ p * decVal d) + 2 * (10 ^ p * decVal d) := by
        ring
      rw [he]
      calc |((roundDecNum d p : ℚ) - 10 ^ p * decVal d) + 2 * (10 ^ p * decVal d)|
          ≤ |(roundDecNum d p : ℚ) - 10 ^ p * decVal d| + |2 * (10 ^ p * decVal d)| :=
            abs_add _ _
        _ ≤ 1/2 + 2 * 10 ^ p := by
            have h3 : |2 * ((10:ℚ) ^ p * decVal d)| = 2 * 10 ^ p * |decVal d| := by
              rw [abs_mul, abs_mul, abs_of_pos hT]
              norm_num
              ring
            rw [h3]
            have h4 : 2 * (10:ℚ) ^ p * |decVal d| ≤ 2 * 10 ^ p * 1 :=
              mul_le_mul_of_nonneg_left hv (by positivity)
            linarith
    calc |(roundDecNum d p : ℚ) ^ 2 - ((10:ℚ) ^ p) ^ 2 * decVal d ^ 2|
        = |(roundDecNum d p : ℚ) - 10 ^ p * decVal d| *
          |(roundDecNum d p : ℚ) + 10 ^ p * decVal d| := by
          rw [← abs_mul]
          congr 1
          ring
      _ ≤ (1/2) * (1/2 + 2 * 10 ^ p) := by
          apply mul_le_mul h1 h2 (abs_nonneg _) (by norm_num)
      _ = 1/4 + 10 ^ p := by ring
  -- component magnitudes
  have hv : ∀ d : Dec, decVal d ^ 2 ≤ 1 → |decVal d| ≤ 1 := by
    intro d h
    rw [abs_le_one_iff_mul_self_le_one]
    nlinarith
  have hsx : decVal dx ^ 2 ≤ 1 := by
    linarith [sq_nonneg (decVal dy), sq_nonneg (decVal dz), sq_nonneg (decVal dw)]
  have hsy : decVal dy ^ 2 ≤ 1 := by
    linarith [sq_nonneg (decVal dx), sq_nonneg (decVal dz), sq_nonneg (decVal dw)]
  have hsz : decVal dz ^ 2 ≤ 1 := by
    linarith [sq_nonneg (decVal dx), sq_nonneg (decVal dy), sq_nonneg (decVal dw)]
  have hsw : decVal dw ^ 2 ≤ 1 := by
    linarith [sq_nonneg (decVal dx), sq_nonneg (decVal dy), sq_nonneg (decVal dz)]
  have hvx : |decVal dx| ≤ 1 := hv dx hsx
  have hvy : |decVal dy| ≤ 1 := hv dy hsy
  have hvz : |decVal dz| ≤ 1 := hv dz hsz
  have hvw : |decVal dw| ≤ 1 := hv dw hsw
  have hx := hsq dx hvx
  have hy := hsq dy hvy
  have hz := hsq dz hvz
  have hw := hsq dw hvw
  -- assemble in ℚ
  have hQ : 1000 * |(roundDecNum dx p : ℚ) ^ 2 + (roundDecNum dy p : ℚ) ^ 2 +
      (roundDecNum dz p : ℚ) ^ 2 + (roundDecNum dw p : ℚ) ^ 2 - ((10:ℚ) ^ p) ^ 2| ≤
      ((10:ℚ) ^ p) ^ 2 := by
    have hdecomp : (roundDecNum dx p : ℚ) ^ 2 + (roundDecNum dy p : ℚ) ^ 2 +
        (roundDecNum dz p : ℚ) ^ 2 + (roundDecNum dw p : ℚ) ^ 2 - ((10:ℚ) ^ p) ^ 2 =
        ((roundDecNum dx p : ℚ) ^ 2 - ((10:ℚ) ^ p) ^ 2 * decVal dx ^ 2) +
        ((roundDecNum dy p : ℚ) ^ 2 - ((10:ℚ) ^ p) ^ 2 * decVal dy ^ 2) +
        ((roundDecNum dz p : ℚ) ^ 2 - ((10:ℚ) ^ p) ^ 2 * decVal dz ^ 2) +
        ((roundDecNum dw p : ℚ) ^ 2 - ((10:ℚ) ^ p) ^ 2 * decVal dw ^ 2) := by
      have hTv : ((10:ℚ) ^ p) ^ 2 * decVal dx ^ 2 + ((10:ℚ) ^ p) ^ 2 * decVal dy ^ 2 +
          ((10:ℚ) ^ p) ^ 2 * decVal dz ^ 2 + ((10:ℚ) ^ p) ^ 2 * decVal dw ^ 2 =
          ((10:ℚ) ^ p) ^ 2 := by
        linear_combination ((10:ℚ) ^ p) ^ 2 * hunit
      linarith
    rw [hdecomp]
    have habs : |((roundDecNum dx p : ℚ) ^ 2 - ((10:ℚ) ^ p) ^ 2 * decVal dx ^ 2) +
        ((roundDecNum dy p : ℚ) ^ 2 - ((10:ℚ) ^ p) ^ 2 * decVal dy ^ 2) +
        ((roundDecNum dz p : ℚ) ^ 2 - ((10:ℚ) ^ p) ^ 2 * decVal dz ^ 2) +
        ((roundDecNum dw p : ℚ) ^ 2 - ((10:ℚ) ^ p) ^ 2 * decVal dw ^ 2)| ≤
        4 * (1/4 + 10 ^ p) := by
      calc _ ≤ |((roundDecNum dx p : ℚ) ^ 2 - ((10:ℚ) ^ p) ^ 2 * decVal dx ^ 2) +
            ((roundDecNum dy p : ℚ) ^ 2 - ((10:ℚ) ^ p) ^ 2 * decVal dy ^ 2) +
            ((roundDecNum dz p : ℚ) ^ 2 - ((10:ℚ) ^ p) ^ 2 * decVal dz ^ 2)| +
            |(roundDecNum dw p : ℚ) ^ 2 - ((10:ℚ) ^ p) ^ 2 * decVal dw ^ 2| :=
          abs_add _ _
        _ ≤ (|((roundDecNum dx p : ℚ) ^ 2 - ((10:ℚ) ^ p) ^ 2 * decVal dx ^ 2) +
            ((roundDecNum dy p : ℚ) ^ 2 - ((10:ℚ) ^ p) ^ 2 * decVal dy ^ 2)| +
            |(roundDecNum dz p : ℚ) ^ 2 - ((10:ℚ) ^ p) ^ 2 * decVal dz ^ 2|) +
            |(roundDecNum dw p : ℚ) ^ 2 - ((10:ℚ) ^ p) ^ 2 * decVal dw ^ 2| := by
          have := abs_add (((roundDecNum dx p : ℚ) ^ 2 - ((10:ℚ) ^ p) ^ 2 * decVal dx ^ 2) +
            ((roundDecNum dy p : ℚ) ^ 2 - ((10:ℚ) ^ p) ^ 2 * decVal dy ^ 2))
            ((roundDecNum dz p : ℚ) ^ 2 - ((10:ℚ) ^ p) ^ 2 * decVal dz ^ 2)
          linarith
        _ ≤ ((|(roundDecNum dx p : ℚ) ^ 2 - ((10:ℚ) ^ p) ^ 2 * decVal dx ^ 2| +
            |(roundDecNum dy p : ℚ) ^ 2 - ((10:ℚ) ^ p) ^ 2 * decVal dy ^ 2|) +
            |(roundDecNum dz p : ℚ) ^ 2 - ((10:ℚ) ^ p) ^ 2 * decVal dz ^ 2|) +
            |(roundDecNum dw p : ℚ) ^ 2 - ((10:ℚ) ^ p) ^ 2 * decVal dw ^ 2| := by
          have := abs_add ((roundDecNum dx p : ℚ) ^ 2 - ((10:ℚ) ^ p) ^ 2 * decVal dx ^ 2)
            ((roundDecNum dy p : ℚ) ^ 2 - ((10:ℚ) ^ p) ^ 2 * decVal dy ^ 2)
          linarith
        _ ≤ 4 * (1/4 + 10 ^ p) := by linarith
    nlinarith [habs, hT4, hT, abs_nonneg (((roundDecNum dx p : ℚ) ^ 2 -
      ((10:ℚ) ^ p) ^ 2 * decVal dx ^ 2) +
      ((roundDecNum dy p : ℚ) ^ 2 - ((10:ℚ) ^ p) ^ 2 * decVal dy ^ 2) +
      ((roundDecNum dz p : ℚ) ^ 2 - ((10:ℚ) ^ p) ^ 2 * decVal dz ^ 2) +
      ((roundDecNum dw p : ℚ) ^ 2 - ((10:ℚ) ^ p) ^ 2 * decVal dw ^ 2))]
  -- return to the integers
  have h2p : ((10:ℚ) ^ (2 * p)) = ((10:ℚ) ^ p) ^ 2 := by
    rw [show 2 * p = p * 2 by ring, pow_mul]
  have hgoal : (1000:ℚ) * |((roundDecNum dx p : Int) : ℚ) ^ 2 +
      ((roundDecNum dy p : Int) : ℚ) ^ 2 + ((roundDecNum dz p : Int) : ℚ) ^ 2 +
      ((roundDecNum dw p : Int) : ℚ) ^ 2 - 10 ^ (2 * p)| ≤ (10:ℚ) ^ (2 * p) := by
    rw [h2p]
    exact hQ
  exact_mod_cast hgoal



theorem firstNonzeroNeg_false_neg : ∀ l : List Int, firstNonzeroNeg l = false →
    (∃ x ∈ l, x ≠ 0) → firstNonzeroNeg (l.map (fun x => -x)) = true := by
  intro l
  induction l with
  | nil =>
    rintro _ ⟨x, hx, _⟩
    cases hx
  | cons a t ih =>
    intro h hex
    unfold firstNonzeroNeg at h ⊢
    simp only [List.map_cons]
    by_cases ha : a = 0
    · rw [if_pos ha] at h
      rw [if_pos (by omega : -a = 0)]
      apply ih h
      rcases hex with ⟨x, hx, hxn⟩
      rcases List.mem_cons.mp hx with rfl | hxt
      · exact absurd ha hxn
      · exact ⟨x, hxt, hxn⟩
    · rw [if_neg ha] at h
      rw [if_neg (by omega : ¬ -a = 0)]
      simp only [decide_eq_false_iff_not] at h
      simp only [decide_eq_true_eq]
      omega

theorem quatFlipB_false_neg (a b c d : Int) (hnz : ¬(a = 0 ∧ b = 0 ∧ c = 0 ∧ d = 0))
    (h : quatFlipB a b c d = false) : quatFlipB (-a) (-b) (-c) (-d) = true := by
  unfold quatFlipB at h ⊢
  simp only [Bool.or_eq_false_iff, Bool.and_eq_false_iff, decide_eq_false_iff_not] at h
  obtain ⟨hw, h2⟩ := h
  by_cases hd0 : d = 0
  · simp only [Bool.or_eq_true, Bool.and_eq_true, decide_eq_true_eq]
    right
    refine ⟨by omega, ?_⟩
    rcases h2 with h2 | h2
    · exact absurd hd0 h2
    · have hft := firstNonzeroNeg_false_neg [a, b, c] h2 (by
        simp only [List.mem_cons, List.not_mem_nil]
        by_cases haz : a = 0
        · by_cases hbz : b = 0
          · exact ⟨c, by tauto, by tauto⟩
          · exact ⟨b, by tauto, hbz⟩
        · exact ⟨a, by tauto, haz⟩)
      simpa using hft
  · simp only [Bool.or_eq_true, decide_eq_true_eq]
    left
    omega

theorem quatTolOK_nonzero (a b c d : Int) (p : Nat)
    (h : quatTolOK a b c d p = true) : ¬(a = 0 ∧ b = 0 ∧ c = 0 ∧ d = 0) := by
  rintro ⟨rfl, rfl, rfl, rfl⟩
  unfold quatTolOK at h
  simp only [decide_eq_true_eq] at h
  have hT : (0:Int) < 10 ^ (2 * p) := by positivity
  rw [show ((0:Int) ^ 2 + 0 ^ 2 + 0 ^ 2 + 0 ^ 2 - 10 ^ (2 * p)) = -(10 ^ (2 * p)) by ring,
    abs_neg, abs_of_pos hT] at h
  omega

/-- The `{x, y, z, w}` flow mapping with the given component scalars. -/
def vquad (a b c d : String) : Value :=
  .vmap (.cons "x" (.scalar a) (.cons "y" (.scalar b) (.cons "z" (.scalar c)
    (.cons "w" (.scalar d) .nil))))

theorem getQuadScalars_vquad (a b c d : String) :
    getQuadScalars (vquad a b c d) = some (a, b, c, d) := by
  simp [vquad, getQuadScalars]



theorem quatStep_sign_invariant (o : UnityPrefabNormalizer) (k : String)
    (sx sy sz sw tx ty tz tw : String) (dx dy dz dw : Dec)
    (hq : o.normalize_quaternions = true) (hk : k ∈ rotationKeys)
    (hp : 4 ≤ o.float_precision)
    (hpx : parseNum? sx.data = some dx) (hpy : parseNum? sy.data = some dy)
    (hpz : parseNum? sz.data = some dz) (hpw : parseNum? sw.data = some dw)
    (htx : parseNum? tx.data = some ⟨-dx.num, dx.scale⟩)
    (hty : parseNum? ty.data = some ⟨-dy.num, dy.scale⟩)
    (htz : parseNum? tz.data = some ⟨-dz.num, dz.scale⟩)
    (htw : parseNum? tw.data = some ⟨-dw.num, dw.scale⟩)
    (hunit : decVal dx ^ 2 + decVal dy ^ 2 + decVal dz ^ 2 + decVal dw ^ 2 = 1) :
    quatStep o k (vquad sx sy sz sw) = quatStep o k (vquad tx ty tz tw) := by
  unfold quatStep
  rw [if_pos ⟨hq, hk⟩, if_pos ⟨hq, hk⟩, getQuadScalars_vquad, getQuadScalars_vquad]
  dsimp only
  rw [hpx, hpy, hpz, hpw, htx, hty, htz, htw]
  dsimp only
  rw [roundDecNum_neg dx, roundDecNum_neg dy, roundDecNum_neg dz, roundDecNum_neg dw]
  have htol := quatTolOK_of_unit dx dy dz dw o.float_precision hp hunit
  have htoln : quatTolOK (-(roundDecNum dx o.float_precision))
      (-(roundDecNum dy o.float_precision)) (-(roundDecNum dz o.float_precision))
      (-(roundDecNum dw o.float_precision)) o.float_precision = true := by
    rw [quatTolOK_neg]
    exact htol
  rw [if_pos htol, if_pos htoln]
  by_cases hf : quatFlipB (roundDecNum dx o.float_precision)
      (roundDecNum dy o.float_precision) (roundDecNum dz o.float_precision)
      (roundDecNum dw o.float_precision) = true
  · rw [if_pos hf, if_neg (by rw [quatFlipB_neg hf]; exact Bool.false_ne_true)]
  · have hnz2 := quatTolOK_nonzero _ _ _ _ _ htol
    have hf2 := quatFlipB_false_neg _ _ _ _ hnz2 (Bool.not_eq_true _ ▸ hf)
    rw [if_neg hf, if_pos hf2]
    simp only [neg_neg]



theorem quatStep_outside (o : UnityPrefabNormalizer) (k : String) (v : Value)
    (h : k ∉ rotationKeys) : quatStep o k v = v := by
  unfold quatStep
  rw [if_neg (fun hc => h hc.2)]

theorem modStep_cases (o : UnityPrefabNormalizer) (k : String) (v : Value) :
    modStep o k v = v ∨ ∃ l, v = .seq l ∧ modStep o k v = .seq (VList.sortByKey l) := by
  unfold modStep
  split
  · cases v with
    | scalar s => left; rfl
    | vmap l => left; rfl
    | seq l => right; exact ⟨l, rfl, rfl⟩
  · left; rfl

theorem modStep_mkQuad (o : UnityPrefabNormalizer) (k : String) (p : Nat)
    (a b c d : Int) : modStep o k (mkQuad p a b c d) = mkQuad p a b c d := by
  simp [mkQuad, modStep_vmap]

theorem normVList_pointwise (o : UnityPrefabNormalizer) : ∀ l : VList,
    normVList o l = l → ∀ x, VList.vmem x l → normVal o x = x
  | .nil => by intro _ x hx; cases hx
  | .cons v t => by
    intro h x hx
    have h2 : VList.cons (normVal o v) (normVList o t) = VList.cons v t := h
    have hv : normVal o v = v := by
      have := congrArg (fun l => match l with
        | VList.cons a _ => a
        | VList.nil => v) h2
      simpa using this
    have ht : normVList o t = t := by
      have := congrArg (fun l => match l with
        | VList.cons _ r => r
        | VList.nil => t) h2
      simpa using this
    rcases hx with rfl | hx
    · exact hv
    · exact normVList_pointwise o t ht x hx

theorem normVList_of_pointwise (o : UnityPrefabNormalizer) : ∀ l : VList,
    (∀ x, VList.vmem x l → normVal o x = x) → normVList o l = l
  | .nil => by intro _; rfl
  | .cons v t => by
    intro h
    show VList.cons (normVal o v) (normVList o t) = VList.cons v t
    rw [h v (Or.inl rfl), normVList_of_pointwise o t (fun x hx => h x (Or.inr hx))]

theorem normVal_mkQuad (o : UnityPrefabNormalizer) (hhex : o.use_hex_floats = false)
    (a b c d : Int) :
    normVal o (mkQuad o.float_precision a b c d) = mkQuad o.float_precision a b c d := by
  simp only [mkQuad, normVal, normEList, normVList]
  rw [floatStep_renderFixed o hhex a, floatStep_renderFixed o hhex b,
    floatStep_renderFixed o hhex c, floatStep_renderFixed o hhex d]
  rw [modStep_scalar, modStep_scalar, modStep_scalar, modStep_scalar]
  rw [quatStep_scalar, quatStep_scalar, quatStep_scalar, quatStep_scalar]

mutual
theorem normVal_idem (o : UnityPrefabNormalizer) (hhex : o.use_hex_floats = false) :
    ∀ v : Value, normVal o (normVal o v) = normVal o v
  | .scalar s => by
    show Value.scalar (floatStep o (floatStep o s)) = Value.scalar (floatStep o s)
    rw [floatStep_fix o hhex]
  | .seq l => by
    show Value.seq (normVList o (normVList o l)) = Value.seq (normVList o l)
    rw [normVList_idem o hhex l]
  | .vmap l => by
    show Value.vmap (normEList o (normEList o l)) = Value.vmap (normEList o l)
    rw [normEList_idem o hhex l]

theorem normVList_idem (o : UnityPrefabNormalizer) (hhex : o.use_hex_floats = false) :
    ∀ l : VList, normVList o (normVList o l) = normVList o l
  | .nil => rfl
  | .cons v t => by
    show VList.cons (normVal o (normVal o v)) (normVList o (normVList o t)) =
      VList.cons (normVal o v) (normVList o t)
    rw [normVal_idem o hhex v, normVList_idem o hhex t]

theorem normEList_idem (o : UnityPrefabNormalizer) (hhex : o.use_hex_floats = false) :
    ∀ l : EList, normEList o (normEList o l) = normEList o l
  | .nil => rfl
  | .cons k v t => by
    show EList.cons k (normEntry o k (normEntry o k v)) (normEList o (normEList o t)) =
      EList.cons k (normEntry o k v) (normEList o t)
    rw [normEList_idem o hhex t]
    have hZ : normVal o (normVal o v) = normVal o v := normVal_idem o hhex v
    -- the once-normalized entry is a fixed point of each phase
    have hYfix : normVal o (modStep o k (normVal o v)) = modStep o k (normVal o v) := by
      rcases modStep_cases o k (normVal o v) with hm | ⟨l2, hl2, hm⟩
      · rw [hm]; exact hZ
      · rw [hm]
        have hZl : normVList o l2 = l2 := by
          have h3 := hZ
          rw [hl2] at h3
          have h4 : Value.seq (normVList o l2) = Value.seq l2 := h3
          have := congrArg (fun w => match w with
            | Value.seq a => a
            | _ => l2) h4
          simpa using this
        have hpw := normVList_pointwise o l2 hZl
        show Value.seq (normVList o (VList.sortByKey l2)) = Value.seq (VList.sortByKey l2)
        rw [normVList_of_pointwise o _ (fun x hx => hpw x (VList.vmem_sortByKey hx))]
    have hXfix : normVal o (quatStep o k (modStep o k (normVal o v))) =
        quatStep o k (modStep o k (normVal o v)) := by
      rcases quatStep_cases o k (modStep o k (normVal o v)) with hq | ⟨a, b, c, d, hq, hflip⟩
      · rw [hq]; exact hYfix
      · rw [hq]; exact normVal_mkQuad o hhex a b c d
    have hXmod : modStep o k (quatStep o k (modStep o k (normVal o v))) =
        quatStep o k (modStep o k (normVal o v)) := by
      rcases quatStep_cases o k (modStep o k (normVal o v)) with hq | ⟨a, b, c, d, hq, hflip⟩
      · rw [hq]; exact modStep_idem o k (normVal o v)
      · rw [hq]; exact modStep_mkQuad o k o.float_precision a b c d
    have hXquat : quatStep o k (quatStep o k (modStep o k (normVal o v))) =
        quatStep o k (modStep o k (normVal o v)) :=
      quatStep_idem o k (modStep o k (normVal o v))
    show EList.cons k (quatStep o k (modStep o k (normVal o (normEntry o k v)))) _ =
      EList.cons k (normEntry o k v) _
    unfold normEntry
    rw [hXfix, hXmod, hXquat]
end

theorem normEntry_idem (o : UnityPrefabNormalizer) (hhex : o.use_hex_floats = false)
    (k : String) (v : Value) : normEntry o k (normEntry o k v) = normEntry o k v := by
  have h := normEList_idem o hhex (.cons k v .nil)
  rw [normEList_cons, normEList_cons] at h
  have := congrArg (fun l => match l with
    | EList.cons _ a _ => a
    | EList.nil => v) h
  simpa using this

theorem normObj_idem (o : UnityPrefabNormalizer) (hhex : o.use_hex_floats = false)
    (ob : UnityYAMLObject) : normObj o (normObj o ob) = normObj o ob := by
  simp [normObj, normEList_idem o hhex]

theorem map_fix {α : Type} (f : α → α) : ∀ l : List α,
    (∀ x ∈ l, f x = x) → l.map f = l := by
  intro l
  induction l with
  | nil => intro _; rfl
  | cons x t ih =>
    intro h
    simp only [List.map_cons, h x (by simp)]
    rw [ih (fun y hy => h y (by simp [hy]))]

/-- A document is in normal form: every object's content is a fixed point of
per-object normalization and, when document sorting is on, the objects are
sorted by fileID. -/
def DocNormal (o : UnityPrefabNormalizer) (d : UnityYAMLDocument) : Prop :=
  (∀ ob ∈ d.objects, normObj o ob = ob) ∧
  (o.sort_documents = true → List.Sorted objFileLe d.objects)

theorem normalizeDoc_normal (o : UnityPrefabNormalizer) (hhex : o.use_hex_floats = false)
    (d : UnityYAMLDocument) : DocNormal o (normalizeDoc o d) := by
  unfold normalizeDoc DocNormal
  by_cases hs : o.sort_documents = true
  · simp only [hs, if_true]
    constructor
    · intro ob hob
      have hmem : ob ∈ d.objects.map (normObj o) :=
        (List.perm_insertionSort objFileLe _).mem_iff.mp hob
      obtain ⟨y, _, rfl⟩ := List.mem_map.mp hmem
      exact normObj_idem o hhex y
    · intro _
      exact List.sorted_insertionSort objFileLe _
  · simp only [if_neg hs]
    constructor
    · intro ob hob
      obtain ⟨y, _, rfl⟩ := List.mem_map.mp hob
      exact normObj_idem o hhex y
    · intro h; exact absurd h hs

theorem normalizeDoc_of_normal (o : UnityPrefabNormalizer) (d : UnityYAMLDocument)
    (h : DocNormal o d) : normalizeDoc o d = d := by
  obtain ⟨hfix, hsort⟩ := h
  unfold normalizeDoc
  rw [map_fix _ _ hfix]
  by_cases hs : o.sort_documents = true
  · simp only [hs, if_true]
    cases d with
    | mk objs =>
      congr 1
      exact List.Sorted.insertionSort_eq (hsort hs)
  · simp only [if_neg hs]

/-- Normalization is idempotent on the document model. -/
theorem normalizeDoc_idem (o : UnityPrefabNormalizer) (hhex : o.use_hex_floats = false)
    (d : UnityYAMLDocument) :
    normalizeDoc o (normalizeDoc o d) = normalizeDoc o d :=
  normalizeDoc_of_normal o _ (normalizeDoc_normal o hhex d)

/-! ### Renderer (modelled from the spec)

Canonical text rendering of a document: `--- !u!<class> &<fileID>` headers,
two-space block indentation, flow style for all-scalar mappings (references
and quaternions), line-feed line endings. -/

def nlChar : Char := Char.ofNat 10

def spaceChar : Char := Char.ofNat 32

def lbraceChar : Char := Char.ofNat 123

def rbraceChar : Char := Char.ofNat 125

def colonChar : Char := Char.ofNat 58

def commaChar : Char := Char.ofNat 44

def bangChar : Char := Char.ofNat 33

def ampChar : Char := Char.ofNat 38

def percentChar : Char := Char.ofNat 37

def spacesN (n : Nat) : List Char := List.replicate n spaceChar

def allScalarsE : EList → Bool
  | .nil => true
  | .cons _ (.scalar _) t => allScalarsE t
  | .cons _ _ _ => false

def renderFlowE : EList → List Char
  | .nil => []
  | .cons k (.scalar s) .nil => k.data ++ [colonChar, spaceChar] ++ s.data
  | .cons k (.scalar s) t =>
      k.data ++ [colonChar, spaceChar] ++ s.data ++ [commaChar, spaceChar] ++ renderFlowE t
  | .cons k _ t => k.data ++ [colonChar, spaceChar] ++ renderFlowE t

mutual
def renderEntry (ind : Nat) (k : String) (v : Value) : List Char :=
  match v with
  | .scalar s => spacesN ind ++ k.data ++ [colonChar, spaceChar] ++ s.data ++ [nlChar]
  | .vmap l =>
      if allScalarsE l then
        spacesN ind ++ k.data ++ [colonChar, spaceChar, lbraceChar] ++
          renderFlowE l ++ [rbraceChar, nlChar]
      else spacesN ind ++ k.data ++ [colonChar, nlChar] ++ renderEntries (ind + 2) l
  | .seq items => spacesN ind ++ k.data ++ [colonChar, nlChar] ++ renderItems ind items
def renderEntries (ind : Nat) : EList → List Char
  | .nil => []
  | .cons k v t => renderEntry ind k v ++ renderEntries ind t
def renderItems (ind : Nat) : VList → List Char
  | .nil => []
  | .cons v t => renderItem ind v ++ renderItems ind t
def renderItem (ind : Nat) (v : Value) : List Char :=
  match v with
  | .scalar s => spacesN ind ++ [hyphenChar, spaceChar] ++ s.data ++ [nlChar]
  | .vmap l =>
      if allScalarsE l then
        spacesN ind ++ [hyphenChar, spaceChar, lbraceChar] ++ renderFlowE l ++
          [rbraceChar, nlChar]
      else renderItemMap ind l
  | .seq _ => spacesN ind ++ [hyphenChar, spaceChar] ++ [nlChar]
def renderItemMap (ind : Nat) : EList → List Char
  | .nil => spacesN ind ++ [hyphenChar, spaceChar, lbraceChar, rbraceChar, nlChar]
  | .cons k (.scalar s) t =>
      spacesN ind ++ [hyphenChar, spaceChar] ++ k.data ++ [colonChar, spaceChar] ++
        s.data ++ [nlChar] ++ renderEntries (ind + 2) t
  | .cons k (.vmap l) t =>
      if allScalarsE l then
        spacesN ind ++ [hyphenChar, spaceChar] ++ k.data ++
          [colonChar, spaceChar, lbraceChar] ++ renderFlowE l ++ [rbraceChar, nlChar] ++
          renderEntries (ind + 2) t
      else spacesN ind ++ [hyphenChar, spaceChar] ++ k.data ++ [colonChar, nlChar] ++
        renderEntries (ind + 4) l ++ renderEntries (ind + 2) t
  | .cons k (.seq items) t =>
      spacesN ind ++ [hyphenChar, spaceChar] ++ k.data ++ [colonChar, nlChar] ++
        renderItems (ind + 2) items ++ renderEntries (ind + 2) t
end

def intToChars (i : Int) : List Char :=
  (if i < 0 then [hyphenChar] else []) ++ natToChars i.natAbs

def renderObject (ob : UnityYAMLObject) : List Char :=
  [hyphenChar, hyphenChar, hyphenChar, spaceChar, bangChar] ++ "u".data ++ [bangChar] ++
    natToChars ob.class_id ++ [spaceChar, ampChar] ++ intToChars ob.file_id ++
    (if ob.stripped then spaceChar :: "stripped".data else []) ++ [nlChar] ++
    ob.class_name.data ++ [colonChar, nlChar] ++ renderEntries 2 ob.content

def preludeChars : List Char :=
  "%YAML 1.1".data ++ [nlChar] ++ "%TAG !u! tag:unity3d.com,2011:".data ++ [nlChar]

/-- Canonical text rendering of a document. -/
def render (d : UnityYAMLDocument) : String :=
  String.mk (preludeChars ++ (d.objects.map renderObject).flatten)

/-! ### Parser (modelled from the spec)

A fail-fast line-based parser for the restricted block dialect: multi-document
`--- !u!<class> &<fileID>` headers, two-space block mappings, sequences with
`- ` items at the key's indentation, inline flow mappings for the reference
shape, original key order and scalar lexical text preserved verbatim. -/

structure ParseError where
  line : Nat
  reason : String
  deriving DecidableEq

def splitLinesAux : List Char → List Char → List (List Char)
  | [], acc => [acc.reverse]
  | c :: rest, acc =>
      if c = nlChar then acc.reverse :: splitLinesAux rest []
      else splitLinesAux rest (c :: acc)

def indentOf (l : List Char) : Nat := (l.takeWhile (fun c => c = spaceChar)).length

def isDashItem (body : List Char) : Bool :=
  match body with
  | c1 :: c2 :: _ => c1 = hyphenChar && c2 = spaceChar
  | _ => false

/-- Split a `key: value` line body into key and (optional) inline rest. -/
def splitKeyRest (body : List Char) : Option (String × Option (List Char)) :=
  let key := body.takeWhile (fun c => ¬ c = colonChar)
  let rest := body.dropWhile (fun c => ¬ c = colonChar)
  if key = [] then none
  else
    match rest with
    | [] => none
    | _ :: r =>
        match r with
        | [] => some (String.mk key, none)
        | c :: v => if c = spaceChar then some (String.mk key, some v) else none

def isFlowStart (cs : List Char) : Bool :=
  match cs with
  | c :: _ => c = lbraceChar
  | [] => false

def splitOnCharAux (sep : Char) : List Char → List Char → List (List Char)
  | [], acc => [acc.reverse]
  | c :: rest, acc =>
      if c = sep then acc.reverse :: splitOnCharAux sep rest []
      else splitOnCharAux sep rest (c :: acc)

/-- Parse one `key: value` item of a flow mapping. -/
def parseFlowPair (cs : List Char) : Option (String × Value) :=
  let cs2 := cs.dropWhile (fun c => c = spaceChar)
  let key := cs2.takeWhile (fun c => ¬ c = colonChar)
  let rest := cs2.dropWhile (fun c => ¬ c = colonChar)
  if key = [] then none
  else
    match rest with
    | [] => none
    | _ :: r =>
        match r with
        | [] => some (String.mk key, .scalar "")
        | c :: v =>
            if c = spaceChar then some (String.mk key, .scalar (String.mk v)) else none

def parseFlowItems : List (List Char) → Option EList
  | [] => some .nil
  | item :: rest =>
      match parseFlowPair item, parseFlowItems rest with
      | some (k, v), some t => some (.cons k v t)
      | _, _ => none

/-- Parse an inline flow mapping `{k: v, ...}` (the Reference shape). -/
def parseFlowMap (cs : List Char) : Option EList :=
  match cs with
  | c :: rest =>
      if c = lbraceChar then
        match rest.getLast? with
        | some c2 =>
            if c2 = rbraceChar then
              let body := rest.dropLast
              if body = [] then some .nil
              else parseFlowItems (splitOnCharAux commaChar body [])
            else none
        | none => none
      else none
  | [] => none

def parseInlineValue (lno : Nat) (v : List Char) : Except ParseError Value :=
  if isFlowStart v then
    match parseFlowMap v with
    | some fl => .ok (.vmap fl)
    | none => .error ⟨lno, "malformed flow mapping"⟩
  else .ok (.scalar (String.mk v))

mutual
def parseBlockMap : Nat → Nat → List (List Char) → Nat →
    Except ParseError (EList × List (List Char) × Nat)
  | 0, _, _, lno => .error ⟨lno, "nesting too deep"⟩
  | fuel + 1, ind, lines, lno =>
    match lines with
    | [] => .ok (.nil, [], lno)
    | l :: rest =>
        let li := indentOf l
        if li < ind then .ok (.nil, lines, lno)
        else if ind < li then .error ⟨lno, "bad indentation"⟩
        else
          let body := l.drop ind
          if isDashItem body then .ok (.nil, lines, lno)
          else
            match splitKeyRest body with
            | none => .error ⟨lno, "expected key-value line"⟩
            | some (k, none) =>
                match rest with
                | [] => .ok (.cons k (.scalar "") .nil, [], lno + 1)
                | l2 :: _ =>
                    let li2 := indentOf l2
                    if li2 = ind ∧ isDashItem (l2.drop ind) = true then
                      match parseSeqItems fuel ind rest (lno + 1) with
                      | .error e => .error e
                      | .ok (items, rem, lno2) =>
                          match parseBlockMap fuel ind rem lno2 with
                          | .error e => .error e
                          | .ok (tl, rem2, lno3) => .ok (.cons k (.seq items) tl, rem2, lno3)
                    else if ind < li2 then
                      if li2 = ind + 2 then
                        match parseBlockMap fuel (ind + 2) rest (lno + 1) with
                        | .error e => .error e
                        | .ok (inner, rem, lno2) =>
                            match parseBlockMap fuel ind rem lno2 with
                            | .error e => .error e
                            | .ok (tl, rem2, lno3) =>
                                .ok (.cons k (.vmap inner) tl, rem2, lno3)
                      else .error ⟨lno + 1, "bad indentation"⟩
                    else
                      match parseBlockMap fuel ind rest (lno + 1) with
                      | .error e => .error e
                      | .ok (tl, rem2, lno3) => .ok (.cons k (.scalar "") tl, rem2, lno3)
            | some (k, some v) =>
                match parseInlineValue lno v with
                | .error e => .error e
                | .ok val =>
                    match parseBlockMap fuel ind rest (lno + 1) with
                    | .error e => .error e
                    | .ok (tl, rem2, lno3) => .ok (.cons k val tl, rem2, lno3)
def parseSeqItems : Nat → Nat → List (List Char) → Nat →
    Except ParseError (VList × List (List Char) × Nat)
  | 0, _, _, lno => .error ⟨lno, "nesting too deep"⟩
  | fuel + 1, ind, lines, lno =>
    match lines with
    | [] => .ok (.nil, [], lno)
    | l :: rest =>
        if indentOf l = ind ∧ isDashItem (l.drop ind) = true then
          let body := (l.drop ind).drop 2
          if isFlowStart body then
            match parseFlowMap body with
            | none => .error ⟨lno, "malformed flow mapping"⟩
            | some fl =>
                match parseSeqItems fuel ind rest (lno + 1) with
                | .error e => .error e
                | .ok (tl, rem, lno2) => .ok (.cons (.vmap fl) tl, rem, lno2)
          else
            match splitKeyRest body with
            | some (k, some v) =>
                match parseInlineValue lno v with
                | .error e => .error e
                | .ok val =>
                    match parseBlockMap fuel (ind + 2) rest (lno + 1) with
                    | .error e => .error e
                    | .ok (tl, rem, lno2) =>
                        match parseSeqItems fuel ind rem lno2 with
                        | .error e => .error e
                        | .ok (items, rem2, lno3) =>
                            .ok (.cons (.vmap (.cons k val tl)) items, rem2, lno3)
            | some (k, none) =>
                match parseBlockMap fuel (ind + 2) rest (lno + 1) with
                | .error e => .error e
                | .ok (tl, rem, lno2) =>
                    match parseSeqItems fuel ind rem lno2 with
                    | .error e => .error e
                    | .ok (items, rem2, lno3) =>
                        .ok (.cons (.vmap (.cons k (.scalar "") tl)) items, rem2, lno3)
            | none =>
                match parseSeqItems fuel ind rest (lno + 1) with
                | .error e => .error e
                | .ok (tl, rem, lno2) => .ok (.cons (.scalar (String.mk body)) tl, rem, lno2)
        else .ok (.nil, lines, lno)
end

/-- Strip an expected leading character sequence. -/
def stripLead : List Char → List Char → Option (List Char)
  | [], cs => some cs
  | _ :: _, [] => none
  | p :: ps, c :: cs => if c = p then stripLead ps cs else none

/-- Parse a document header `--- !u!<classID> &<fileID>[ stripped]`. -/
def parseHeader (l : List Char) : Option (Nat × Int × Bool) :=
  match stripLead ([hyphenChar, hyphenChar, hyphenChar, spaceChar, bangChar] ++
      "u".data ++ [bangChar]) l with
  | none => none
  | some r1 =>
      let cid := r1.takeWhile isDigitChar
      let r2 := r1.dropWhile isDigitChar
      if cid = [] then none
      else
        match stripLead [spaceChar, ampChar] r2 with
        | none => none
        | some r3 =>
            let fidChars := r3.takeWhile (fun c => isDigitChar c || c = hyphenChar)
            let r4 := r3.dropWhile (fun c => isDigitChar c || c = hyphenChar)
            match parseInt? fidChars with
            | none => none
            | some fid =>
                if r4 = [] then some (parseDigitsBE cid, fid, false)
                else if r4 = spaceChar :: "stripped".data then
                  some (parseDigitsBE cid, fid, true)
                else none

/-- Parse the root class-name line `ClassName:`. -/
def parseClassName (l : List Char) : Option String :=
  let name := l.takeWhile (fun c => ¬ c = colonChar)
  let rest := l.dropWhile (fun c => ¬ c = colonChar)
  if name = [] then none
  else
    match l with
    | c :: _ =>
        if c = spaceChar then none
        else if rest = [colonChar] then some (String.mk name) else none
    | [] => none

def parseObjects : Nat → List (List Char) → Nat →
    Except ParseError (List UnityYAMLObject)
  | 0, _, lno => .error ⟨lno, "nesting too deep"⟩
  | fuel + 1, lines, lno =>
    match lines with
    | [] => .ok []
    | l :: rest =>
        match l with
        | c :: _ =>
            if c = percentChar then parseObjects fuel rest (lno + 1)
            else
              match parseHeader l with
              | none => .error ⟨lno, "malformed document separator or header"⟩
              | some (cid, fid, stripped) =>
                  match rest with
                  | [] => .error ⟨lno + 1, "missing class name line"⟩
                  | l2 :: rest2 =>
                      match parseClassName l2 with
                      | none => .error ⟨lno + 1, "malformed class name line"⟩
                      | some cname =>
                          match parseBlockMap fuel 2 rest2 (lno + 2) with
                          | .error e => .error e
                          | .ok (content, rem, lno2) =>
                              match parseObjects fuel rem lno2 with
                              | .error e => .error e
                              | .ok objs =>
                                  .ok (⟨cid, cname, fid, stripped, content⟩ :: objs)
        | [] => parseObjects fuel rest (lno + 1)

/-- Modelled from the spec: the missing `prefab_tool.parser`'s
`parse(text) -> Document`, failing fast with a line-numbered `ParseError` on
structural malformation and tolerating duplicate fileIDs. -/
def UnityYAMLDocument.parse (text : String) : Except ParseError UnityYAMLDocument :=
  let ls := (splitLinesAux text.data []).filter (fun l => l ≠ [])
  match parseObjects (4 * text.data.length + 8) ls 1 with
  | .ok objs => .ok ⟨objs⟩
  | .error e => .error e

/-- Text-level normalization: parse, normalize, render canonically. -/
def UnityPrefabNormalizer.normalize_text (o : UnityPrefabNormalizer) (text : String) :
    Except ParseError String :=
  match UnityYAMLDocument.parse text with
  | .error e => .error e
  | .ok d => .ok (render (normalizeDoc o d))

instance {ε α : Type} [DecidableEq ε] [DecidableEq α] : DecidableEq (Except ε α)
  | .ok a, .ok b =>
      if h : a = b then isTrue (by rw [h]) else isFalse (fun he => by cases he; exact h rfl)
  | .error a, .error b =>
      if h : a = b then isTrue (by rw [h]) else isFalse (fun he => by cases he; exact h rfl)
  | .ok _, .error _ => isFalse (fun he => by cases he)
  | .error _, .ok _ => isFalse (fun he => by cases he)

/-! ### The three-way merge engine (modelled from the spec)

All three inputs are normalized independently; objects are aligned by fileID,
then reconciled property by property with the four three-way rules; an
irreconcilable leaf becomes an inline conflict marker carrying the fileID,
property path and both candidate values, and sets the conflict flag. -/

mutual
def valueRepr : Value → List Char
  | .scalar s => s.data
  | .seq l => Char.ofNat 91 :: vlistRepr l ++ [Char.ofNat 93]
  | .vmap l => lbraceChar :: elistRepr l ++ [rbraceChar]
def vlistRepr : VList → List Char
  | .nil => []
  | .cons v .nil => valueRepr v
  | .cons v t => valueRepr v ++ [commaChar, spaceChar] ++ vlistRepr t
def elistRepr : EList → List Char
  | .nil => []
  | .cons k v .nil => k.data ++ [colonChar, spaceChar] ++ valueRepr v
  | .cons k v t =>
      k.data ++ [colonChar, spaceChar] ++ valueRepr v ++ [commaChar, spaceChar] ++ elistRepr t
end

def ltChar : Char := Char.ofNat 60

def gtChar : Char := Char.ofNat 62

def optValueRepr : Option Value → List Char
  | some v => valueRepr v
  | none => "(deleted)".data

/-- Inline conflict marker carrying the fileID, property path and both
candidate values. -/
def conflictMarker (fid : Int) (path : String) (vo vt : Option Value) : Value :=
  .scalar (String.mk
    ([ltChar, ltChar, ltChar, ltChar, ltChar, ltChar, ltChar, spaceChar] ++
      "CONFLICT fileID=".data ++ intToChars fid ++ " path=".data ++ path.data ++
      " ours=".data ++ optValueRepr vo ++ " theirs=".data ++ optValueRepr vt ++
      [spaceChar, gtChar, gtChar, gtChar, gtChar, gtChar, gtChar, gtChar]))

def findObj (d : UnityYAMLDocument) (fid : Int) : Option UnityYAMLObject :=
  d.objects.find? (fun ob => ob.file_id = fid)

def idsOf (d : UnityYAMLDocument) : List Int := d.objects.map (fun ob => ob.file_id)

/-- Remove adjacent duplicates from a (sorted) id list. -/
def dedupAdj : List Int → List Int
  | [] => []
  | [a] => [a]
  | a :: b :: t => if a = b then dedupAdj (b :: t) else a :: dedupAdj (b :: t)

/-- Ordered union of the keys of the three aligned mappings. -/
def keyUnion (lb lo lt : EList) : List String :=
  lb.keys ++ (lo.keys.filter (fun k => ¬ lb.hasKey k)) ++
    (lt.keys.filter (fun k => ¬ lb.hasKey k ∧ ¬ lo.hasKey k))

def mergeEntriesWith
    (mv : String → Option Value → Option Value → Option Value → Option Value × Bool)
    (lb lo lt : EList) : List String → EList × Bool
  | [] => (.nil, false)
  | k :: ks =>
      let r := mv k (lb.lookup? k) (lo.lookup? k) (lt.lookup? k)
      let rest := mergeEntriesWith mv lb lo lt ks
      match r.1 with
      | some v => (.cons k v rest.1, r.2 || rest.2)
      | none => (rest.1, r.2 || rest.2)

/-- Three-way reconciliation of one property slot (`none` = absent): unchanged
in both keeps base, a change on one side wins, identical changes agree,
mappings changed differently on both sides recurse per key, and any other
double change (including modify/delete) is an unresolved conflict replaced by
an inline marker. -/
def mergeValues : Nat → Int → String → Option Value → Option Value → Option Value →
    Option Value × Bool
  | 0, fid, path, _, vo, vt =>
      if vo = vt then (vo, false) else (some (conflictMarker fid path vo vt), true)
  | fuel + 1, fid, path, vb, vo, vt =>
      if vo = vt then (vo, false)
      else if vo = vb then (vt, false)
      else if vt = vb then (vo, false)
      else
        match vo, vt with
        | some (.vmap lo), some (.vmap lt) =>
            let lb := match vb with
              | some (.vmap l) => l
              | _ => .nil
            let merged := mergeEntriesWith
              (fun k b o2 t2 => mergeValues fuel fid (path ++ "." ++ k) b o2 t2)
              lb lo lt (keyUnion lb lo lt)
            (some (.vmap merged.1), merged.2)
        | _, _ => (some (conflictMarker fid path vo vt), true)

/-- Three-way reconciliation of one object slot, keyed by fileID. -/
def mergeObjectAt (fuel : Nat) (fid : Int)
    (b o t : Option UnityYAMLObject) : Option UnityYAMLObject × Bool :=
  if o = t then (o, false)
  else if o = b then (t, false)
  else if t = b then (o, false)
  else
    match b, o, t with
    | some ob, some oo, some ot =>
        if oo.class_id = ot.class_id ∧ oo.class_name = ot.class_name ∧
            oo.stripped = ot.stripped then
          let merged := mergeEntriesWith
            (fun k vb vo vt => mergeValues fuel fid k vb vo vt)
            ob.content oo.content ot.content
            (keyUnion ob.content oo.content ot.content)
          (some ⟨oo.class_id, oo.class_name, fid, oo.stripped, merged.1⟩, merged.2)
        else (some oo, true)
    | none, some oo, some _ => (some oo, true)
    | some _, none, some ot => (some ot, true)
    | some _, some oo, none => (some oo, true)
    | _, _, _ => (o, false)

/-- Merge of three already-normalized documents, aligned by fileID. -/
def mergeDocs (fuel : Nat) (nb no2 nt : UnityYAMLDocument) : UnityYAMLDocument × Bool :=
  let ids := dedupAdj (List.insertionSort (fun a b : Int => a ≤ b)
    (idsOf nb ++ idsOf no2 ++ idsOf nt))
  let results := ids.map
    (fun i => mergeObjectAt fuel i (findObj nb i) (findObj no2 i) (findObj nt i))
  (⟨results.filterMap (fun r => r.1)⟩, results.any (fun r => r.2))

/-- Modelled from the spec: the missing `prefab_tool.merge.three_way_merge` —
all three inputs are parsed and independently normalized, objects are aligned
by fileID and reconciled, and the merged document is re-rendered through the
Normalizer's renderer along with the conflict flag. -/
def three_way_merge (baseText oursText theirsText : String) :
    Except ParseError (String × Bool) :=
  match UnityYAMLDocument.parse baseText, UnityYAMLDocument.parse oursText,
      UnityYAMLDocument.parse theirsText with
  | .ok db, .ok d2, .ok d3 =>
      let o : UnityPrefabNormalizer := {}
      let nb := normalizeDoc o db
      let no2 := normalizeDoc o d2
      let nt := normalizeDoc o d3
      let fuel := baseText.data.length + oursText.data.length + theirsText.data.length + 8
      let md := mergeDocs fuel nb no2 nt
      .ok (render md.1, md.2)
  | .error e, _, _ => .error e
  | .ok _, .error e, _ => .error e
  | .ok _, .ok _, .error e => .error e

theorem dedupAdj_mem : ∀ (l : List Int) (a : Int), a ∈ dedupAdj l ↔ a ∈ l
  | [], _ => Iff.rfl
  | [_], _ => Iff.rfl
  | b :: c :: t, a => by
      rw [dedupAdj]
      split
      · rename_i hbc
        rw [dedupAdj_mem (c :: t) a]
        subst hbc
        simp [List.mem_cons]
      · simp [List.mem_cons, dedupAdj_mem (c :: t) a]

theorem dedupAdj_pairwise_lt : ∀ (l : List Int), l.Pairwise (· ≤ ·) →
    (dedupAdj l).Pairwise (· < ·)
  | [], _ => List.Pairwise.nil
  | [_], _ => List.pairwise_singleton _ _
  | b :: c :: t, h => by
      rw [dedupAdj]
      split
      · exact dedupAdj_pairwise_lt (c :: t) h.of_cons
      · rename_i hbc
        refine List.pairwise_cons.mpr ⟨?_, dedupAdj_pairwise_lt (c :: t) h.of_cons⟩
        intro x hx
        have hxm : x ∈ c :: t := (dedupAdj_mem _ _).mp hx
        have hbc2 : b < c := by
          have hle : b ≤ c := (List.pairwise_cons.mp h).1 c (List.mem_cons_self _ _)
          exact lt_of_le_of_ne hle hbc
        rcases List.mem_cons.mp hxm with rfl | hxt
        · exact hbc2
        · have hcx : c ≤ x := (List.pairwise_cons.mp h.of_cons).1 x hxt
          exact lt_of_lt_of_le hbc2 hcx

theorem pairwise_lt_of_le_nodup (l : List Int) (hs : l.Pairwise (· ≤ ·))
    (hnd : l.Nodup) : l.Pairwise (· < ·) :=
  (hs.and hnd).imp (fun h => lt_of_le_of_ne h.1 h.2)

theorem eq_of_pairwise_lt_mem (l1 l2 : List Int) (h1 : l1.Pairwise (· < ·))
    (h2 : l2.Pairwise (· < ·)) (hm : ∀ a, a ∈ l1 ↔ a ∈ l2) : l1 = l2 := by
  have nd1 : l1.Nodup := h1.imp (fun h => ne_of_lt h)
  have nd2 : l2.Nodup := h2.imp (fun h => ne_of_lt h)
  have hp : l1.Perm l2 := (List.perm_ext_iff_of_nodup nd1 nd2).mpr hm
  exact List.eq_of_perm_of_sorted hp
    (List.Sorted.le_of_lt h1) (List.Sorted.le_of_lt h2)

/-- The id list the keyed merge iterates over is just the (sorted, distinct)
ids of the document when merging a document with itself. -/
theorem mergeIds_self (n : UnityYAMLDocument) (hs : (idsOf n).Pairwise (· ≤ ·))
    (hnd : (idsOf n).Nodup) :
    dedupAdj (List.insertionSort (fun a b : Int => a ≤ b)
      (idsOf n ++ idsOf n ++ idsOf n)) = idsOf n := by
  apply eq_of_pairwise_lt_mem
  · exact dedupAdj_pairwise_lt _
      (List.sorted_insertionSort (fun a b : Int => a ≤ b) _)
  · exact pairwise_lt_of_le_nodup _ hs hnd
  · intro a
    rw [dedupAdj_mem]
    constructor
    · intro h
      have := (List.perm_insertionSort (fun a b : Int => a ≤ b)
        (idsOf n ++ idsOf n ++ idsOf n)).mem_iff.mp h
      rcases List.mem_append.mp this with h2 | h2
      · rcases List.mem_append.mp h2 with h3 | h3 <;> exact h3
      · exact h2
    · intro h
      exact (List.perm_insertionSort (fun a b : Int => a ≤ b)
        (idsOf n ++ idsOf n ++ idsOf n)).mem_iff.mpr
        (List.mem_append.mpr (Or.inl (List.mem_append.mpr (Or.inl h))))

theorem find?_unique : ∀ (objs : List UnityYAMLObject) (ob : UnityYAMLObject),
    (objs.map (fun x => x.file_id)).Nodup → ob ∈ objs →
    objs.find? (fun x => x.file_id = ob.file_id) = some ob
  | [], ob, _, h => absurd h (List.not_mem_nil ob)
  | x :: t, ob, hnd, h => by
      by_cases hx : x.file_id = ob.file_id
      · rcases List.mem_cons.mp h with rfl | hobt
        · rw [List.find?_cons_of_pos _ (by simp)]
        · exfalso
          have hmem : ob.file_id ∈ t.map (fun x => x.file_id) :=
            List.mem_map.mpr ⟨ob, hobt, rfl⟩
          have hh : x.file_id ∉ t.map (fun x => x.file_id) :=
            (List.nodup_cons.mp hnd).1
          rw [hx] at hh
          exact hh hmem
      · rcases List.mem_cons.mp h with rfl | hobt
        · exact absurd rfl hx
        · rw [List.find?_cons_of_neg _ (by simpa using hx)]
          exact find?_unique t ob (List.nodup_cons.mp hnd).2 hobt

theorem filterMap_id_of_some {α : Type} : ∀ (l : List α) (f : α → Option α),
    (∀ a ∈ l, f a = some a) → l.filterMap f = l
  | [], _, _ => rfl
  | a :: t, f, h => by
      rw [List.filterMap_cons, h a (List.mem_cons_self _ _)]
      rw [filterMap_id_of_some t f (fun b hb => h b (List.mem_cons_of_mem _ hb))]

theorem findObj_self (n : UnityYAMLDocument) (hnd : (idsOf n).Nodup) :
    ∀ ob ∈ n.objects, findObj n ob.file_id = some ob := by
  intro ob hob
  exact find?_unique n.objects ob hnd hob

theorem mergeObjectAt_self (fuel : Nat) (i : Int) (o : Option UnityYAMLObject) :
    mergeObjectAt fuel i o o o = (o, false) := by
  unfold mergeObjectAt
  rw [if_pos rfl]

/-- Merging three identical documents never sets the conflict flag. -/
theorem mergeDocs_self_flag (fuel : Nat) (n : UnityYAMLDocument) :
    (mergeDocs fuel n n n).2 = false := by
  rw [mergeDocs]
  dsimp only
  rw [List.any_eq_false]
  intro r hr
  rw [List.mem_map] at hr
  obtain ⟨i, _, rfl⟩ := hr
  rw [mergeObjectAt_self]
  simp

/-- Merging a sorted, duplicate-free document with itself is the identity. -/
theorem mergeDocs_self (fuel : Nat) (n : UnityYAMLDocument)
    (hs : (idsOf n).Pairwise (· ≤ ·)) (hnd : (idsOf n).Nodup) :
    mergeDocs fuel n n n = (n, false) := by
  rw [mergeDocs]
  rw [mergeIds_self n hs hnd]
  have hmap : (idsOf n).map
        (fun i => mergeObjectAt fuel i (findObj n i) (findObj n i) (findObj n i)) =
      (idsOf n).map (fun i => (findObj n i, false)) := by
    apply List.map_congr_left
    intro i _
    exact mergeObjectAt_self fuel i (findObj n i)
  rw [hmap]
  rw [List.filterMap_map]
  have hobjs : (idsOf n).filterMap
      ((fun r : Option UnityYAMLObject × Bool => r.1) ∘ fun i => (findObj n i, false)) =
      n.objects := by
    show (idsOf n).filterMap (fun i => findObj n i) = n.objects
    rw [idsOf, List.filterMap_map]
    apply filterMap_id_of_some
    intro ob hob
    exact findObj_self n hnd ob hob
  rw [hobjs]
  have hany : (List.map (fun i => ((findObj n i), false)) (idsOf n)).any
      (fun r => r.2) = false := by
    rw [List.any_eq_false]
    intro r hr
    rw [List.mem_map] at hr
    obtain ⟨i, _, rfl⟩ := hr
    simp
  rw [hany]

/-- With `sort_documents`, the normalized document's ids are ascending. -/
theorem normalizeDoc_ids_pairwise (o : UnityPrefabNormalizer)
    (h : o.sort_documents = true) (d : UnityYAMLDocument) :
    (idsOf (normalizeDoc o d)).Pairwise (· ≤ ·) := by
  rw [normalizeDoc, idsOf]
  dsimp only
  rw [h, if_pos rfl]
  have hs := List.sorted_insertionSort objFileLe (d.objects.map (normObj o))
  exact hs.map _ (fun a b hab => hab)

/-- A single-object text and the document it parses to. -/
def soloText : String := "--- !u!1 &100\nGameObject:\n  m_Name: Player\n"

def soloDoc : UnityYAMLDocument :=
  ⟨[⟨1, "GameObject", 100, false, .cons "m_Name" (.scalar "Player") .nil⟩]⟩

theorem findObj_file_id (n : UnityYAMLDocument) (i : Int) :
    ∀ ob, findObj n i = some ob → ob.file_id = i := by
  intro ob h
  have := List.find?_some h
  simpa using this

/-- Whatever `mergeObjectAt` keeps for slot `i` carries fileID `i`, as long as
the three aligned candidates do. -/
theorem mergeObjectAt_fid (fuel : Nat) (i : Int) (b o t : Option UnityYAMLObject)
    (hb : ∀ x, b = some x → x.file_id = i) (ho : ∀ x, o = some x → x.file_id = i)
    (ht : ∀ x, t = some x → x.file_id = i) :
    ∀ ob, (mergeObjectAt fuel i b o t).1 = some ob → ob.file_id = i := by
  intro ob hob
  unfold mergeObjectAt at hob
  split at hob
  · exact ho ob hob
  · split at hob
    · exact ht ob hob
    · split at hob
      · exact ho ob hob
      · split at hob
        · split at hob
          · dsimp only at hob
            cases hob
            rfl
          · dsimp only at hob
            cases hob
            exact ho _ rfl
        · dsimp only at hob
          cases hob
          exact ho _ rfl
        · dsimp only at hob
          cases hob
          exact ht _ rfl
        · dsimp only at hob
          cases hob
          exact ho _ rfl
        · exact ho ob hob

theorem pairwise_ids_filterMap (g : Int → Option UnityYAMLObject × Bool)
    (hg : ∀ i ob, (g i).1 = some ob → ob.file_id = i) :
    ∀ (ids : List Int), ids.Pairwise (· ≤ ·) →
    (((ids.map g).filterMap (fun r => r.1)).map (fun ob => ob.file_id)).Pairwise (· ≤ ·)
  | [], _ => by simp
  | i :: t, h => by
      rw [List.map_cons, List.filterMap_cons]
      cases hgi : (g i).1 with
      | none => exact pairwise_ids_filterMap g hg t h.of_cons
      | some ob =>
          rw [List.map_cons]
          refine List.pairwise_cons.mpr ⟨?_, pairwise_ids_filterMap g hg t h.of_cons⟩
          intro y hy
          rw [List.mem_map] at hy
          obtain ⟨ob2, hob2, rfl⟩ := hy
          rw [List.mem_filterMap] at hob2
          obtain ⟨r, hr, hro⟩ := hob2
          rw [List.mem_map] at hr
          obtain ⟨j, hj, rfl⟩ := hr
          have h1 : ob.file_id = i := hg i ob hgi
          have h2 : ob2.file_id = j := hg j ob2 hro
          rw [h1, h2]
          exact (List.pairwise_cons.mp h).1 j hj

/-- Every merged document comes out with its objects ordered by fileID. -/
theorem idsOf_mergeDocs_pairwise (fuel : Nat) (n1 n2 n3 : UnityYAMLDocument) :
    (idsOf (mergeDocs fuel n1 n2 n3).1).Pairwise (· ≤ ·) := by
  rw [mergeDocs, idsOf]
  dsimp only
  exact pairwise_ids_filterMap _
    (fun i ob hob => mergeObjectAt_fid fuel i _ _ _
      (findObj_file_id n1 i) (findObj_file_id n2 i) (findObj_file_id n3 i) ob hob)
    _
    ((dedupAdj_pairwise_lt _
      (List.sorted_insertionSort (fun a b : Int => a ≤ b) _)).imp (fun h => le_of_lt h))

/-- Three inputs whose rotation components mix, under per-component merging,
into a unit quaternion that renormalization would flip. -/
def qBase : String :=
  "--- !u!4 &400\nTransform:\n  m_LocalRotation: \x7bx: 0.6, y: -0.8, z: 0.0, w: 0.0\x7d\n"

def qOurs : String :=
  "--- !u!4 &400\nTransform:\n  m_LocalRotation: \x7bx: 0.0, y: -0.8, z: 0.0, w: 0.0\x7d\n"

def qTheirs : String :=
  "--- !u!4 &400\nTransform:\n  m_LocalRotation: \x7bx: 0.6, y: -0.8, z: 0.6, w: 0.0\x7d\n"

/-- The clean merge of the three `q...` inputs, as rendered. -/
def qMergedText : String :=
  "%YAML 1.1\n%TAG !u! tag:unity3d.com,2011:\n--- !u!4 &400\nTransform:\n  m_LocalRotation: \x7bx: 0.0, y: -0.8, z: 0.6, w: 0.0\x7d\n"

/-- What normalizing `qMergedText` actually produces (the quaternion flips). -/
def qRenormText : String :=
  "%YAML 1.1\n%TAG !u! tag:unity3d.com,2011:\n--- !u!4 &400\nTransform:\n  m_LocalRotation: \x7bx: 0.0, y: 0.8, z: -0.6, w: 0.0\x7d\n"

/-! ### The validator (modelled from the spec)

Structured findings: duplicate fileIDs among non-stripped objects (error),
missing required fields from a per-class rule table (error), dangling
guid-less local references (warning). -/

inductive Severity where
  | error
  | warning
  | info
  deriving DecidableEq

structure ValidationIssue where
  severity : Severity
  message : String
  file_id : Option Int := none
  property_path : Option String := none
  suggestion : Option String := none
  deriving DecidableEq

def nonStrippedIds (d : UnityYAMLDocument) : List Int :=
  (d.objects.filter (fun ob => ¬ ob.stripped)).map (fun ob => ob.file_id)

/-- The distinct fileID values shared by two or more non-stripped objects. -/
def duplicatedIds (d : UnityYAMLDocument) : List Int :=
  ((nonStrippedIds d).filter (fun v => 2 ≤ (nonStrippedIds d).count v)).dedup

/-- Class names of all non-stripped objects carrying fileID `v`. -/
def collidersOf (d : UnityYAMLDocument) (v : Int) : List String :=
  (d.objects.filter (fun ob => ¬ ob.stripped ∧ ob.file_id = v)).map
    (fun ob => ob.class_name)

def joinComma : List String → String
  | [] => ""
  | [s] => s
  | s :: t => s ++ ", " ++ joinComma t

def dupMessage (v : Int) (names : List String) : String :=
  "Duplicate fileID " ++ String.mk (intToChars v) ++ " used by: " ++ joinComma names

/-- One error Issue per duplicated fileID, naming all colliding objects. -/
def dupIssues (d : UnityYAMLDocument) : List ValidationIssue :=
  (duplicatedIds d).map (fun v =>
    ⟨.error, dupMessage v (collidersOf d v), some v, none, none⟩)

/-- The declarative class → required-field rule table. -/
def requiredFieldRules : List (String × String × Severity) :=
  [("GameObject", "m_Name", .error), ("Transform", "m_GameObject", .error)]

def reqMessage (cls f : String) : String :=
  "Missing required field " ++ f ++ " on " ++ cls

def reqIssuesFor (ob : UnityYAMLObject) : List ValidationIssue :=
  if ob.stripped then []
  else
    requiredFieldRules.filterMap (fun r =>
      if r.1 = ob.class_name ∧ ob.content.hasKey r.2.1 = false then
        some ⟨r.2.2, reqMessage r.1 r.2.1, some ob.file_id, some r.2.1, none⟩
      else none)

def reqIssues (d : UnityYAMLDocument) : List ValidationIssue :=
  (d.objects.map reqIssuesFor).flatten

def dangMessage (i : Int) : String :=
  "Unresolved reference to fileID " ++ String.mk (intToChars i)

/-- The target of a guid-less local Reference-shaped mapping. -/
def refTarget? (l : EList) : Option Int :=
  match l.lookup? "fileID" with
  | some (.scalar s) =>
      match parseInt? s.data with
      | some i => if l.hasKey "guid" then none else some i
      | none => none
  | _ => none

def pathJoin (path k : String) : String :=
  if path = "" then k else path ++ "." ++ k

mutual
def danglingV (d : UnityYAMLDocument) (path : String) : Value → List ValidationIssue
  | .scalar _ => []
  | .seq l => danglingL d path l
  | .vmap l =>
      (match refTarget? l with
       | some i =>
           if i ≠ 0 ∧ findObj d i = none then
             [⟨.warning, dangMessage i, some i, some path, none⟩]
           else []
       | none => []) ++ danglingE d path l
def danglingL (d : UnityYAMLDocument) (path : String) : VList → List ValidationIssue
  | .nil => []
  | .cons v t => danglingV d path v ++ danglingL d path t
def danglingE (d : UnityYAMLDocument) (path : String) : EList → List ValidationIssue
  | .nil => []
  | .cons k v t => danglingV d (pathJoin path k) v ++ danglingE d path t
end

def danglingIssues (d : UnityYAMLDocument) : List ValidationIssue :=
  (d.objects.map (fun ob => danglingE d "" ob.content)).flatten

structure PrefabValidator where
  strict : Bool := false
  deriving DecidableEq

structure ValidationResult where
  issues : List ValidationIssue
  strict : Bool
  deriving DecidableEq

def ValidationResult.errors (r : ValidationResult) : List ValidationIssue :=
  r.issues.filter (fun i => i.severity = .error)

def ValidationResult.warnings (r : ValidationResult) : List ValidationIssue :=
  r.issues.filter (fun i => i.severity = .warning)

/-- `is_valid` = no error-severity issues; in strict mode, warnings also fail. -/
def ValidationResult.is_valid (r : ValidationResult) : Bool :=
  r.errors.isEmpty && (!r.strict || r.warnings.isEmpty)

/-- Modelled from the spec: the missing `prefab_tool.validator`'s
`validate(Document)` — the ordered issue list (duplicates, required fields,
dangling references) plus the strict flag. -/
def PrefabValidator.validate (pv : PrefabValidator) (d : UnityYAMLDocument) :
    ValidationResult :=
  ⟨dupIssues d ++ reqIssues d ++ danglingIssues d, pv.strict⟩

/-- The duplicate-fileID Issue the validator must emit for value `v`:
error severity, carrying `v`, with the message naming all colliders. -/
def isDupIssueFor (d : UnityYAMLDocument) (v : Int) (i : ValidationIssue) : Bool :=
  decide (i.severity = .error ∧ i.file_id = some v ∧
    i.message = dupMessage v (collidersOf d v))

theorem reqMessage_ne_dupMessage (cls f : String) (v : Int) (names : List String) :
    reqMessage cls f ≠ dupMessage v names := by
  intro h
  have hd : some 'M' = some 'D' := congrArg (fun s => s.data.head?) h
  exact absurd hd (by decide)

theorem mem_reqIssues (d : UnityYAMLDocument) (i : ValidationIssue)
    (h : i ∈ reqIssues d) : ∃ cls f, i.message = reqMessage cls f := by
  rw [reqIssues, List.mem_flatten] at h
  obtain ⟨l, hl, hi⟩ := h
  rw [List.mem_map] at hl
  obtain ⟨ob, _, rfl⟩ := hl
  rw [reqIssuesFor] at hi
  split at hi
  · cases hi
  · rw [List.mem_filterMap] at hi
    obtain ⟨r, _, hr⟩ := hi
    split at hr
    · cases hr
      exact ⟨r.1, r.2.1, rfl⟩
    · cases hr

mutual
theorem danglingV_warning (d : UnityYAMLDocument) (path : String) :
    ∀ (v : Value) (i : ValidationIssue), i ∈ danglingV d path v → i.severity = .warning
  | .scalar _, i, h => by cases h
  | .seq l, i, h => danglingL_warning d path l i h
  | .vmap l, i, h => by
      rw [danglingV] at h
      rcases List.mem_append.mp h with h1 | h2
      · revert h1
        cases refTarget? l with
        | none => intro h1; cases h1
        | some j =>
            intro h1
            dsimp only at h1
            split at h1
            · rw [List.mem_singleton] at h1
              rw [h1]
            · cases h1
      · exact danglingE_warning d path l i h2

theorem danglingL_warning (d : UnityYAMLDocument) (path : String) :
    ∀ (l : VList) (i : ValidationIssue), i ∈ danglingL d path l → i.severity = .warning
  | .nil, i, h => by cases h
  | .cons v t, i, h => by
      rw [danglingL] at h
      rcases List.mem_append.mp h with h1 | h2
      · exact danglingV_warning d path v i h1
      · exact danglingL_warning d path t i h2

theorem danglingE_warning (d : UnityYAMLDocument) (path : String) :
    ∀ (l : EList) (i : ValidationIssue), i ∈ danglingE d path l → i.severity = .warning
  | .nil, i, h => by cases h
  | .cons k v t, i, h => by
      rw [danglingE] at h
      rcases List.mem_append.mp h with h1 | h2
      · exact danglingV_warning d (pathJoin path k) v i h1
      · exact danglingE_warning d path t i h2
end

theorem mem_danglingIssues (d : UnityYAMLDocument) (i : ValidationIssue)
    (h : i ∈ danglingIssues d) : i.severity = .warning := by
  rw [danglingIssues, List.mem_flatten] at h
  obtain ⟨l, hl, hi⟩ := h
  rw [List.mem_map] at hl
  obtain ⟨ob, _, rfl⟩ := hl
  exact danglingE_warning d "" ob.content i hi

theorem countP_dupIssues (d : UnityYAMLDocument) (v : Int) :
    (dupIssues d).countP (isDupIssueFor d v) = if v ∈ duplicatedIds d then 1 else 0 := by
  rw [dupIssues, List.countP_map]
  have hfun : (isDupIssueFor d v ∘ fun w =>
      (⟨.error, dupMessage w (collidersOf d w), some w, none, none⟩ : ValidationIssue)) =
      (fun w => w == v) := by
    funext w
    by_cases hw : w = v
    · subst hw
      simp [isDupIssueFor]
    · simp [isDupIssueFor, hw]
  rw [hfun, ← List.count_eq_countP]
  have hnd : (duplicatedIds d).Nodup := by
    rw [duplicatedIds]; exact List.nodup_dedup _
  by_cases hv : v ∈ duplicatedIds d
  · rw [if_pos hv]
    exact List.count_eq_one_of_mem hnd hv
  · rw [if_neg hv]
    exact List.count_eq_zero_of_not_mem hv

theorem countP_reqIssues (d : UnityYAMLDocument) (v : Int) :
    (reqIssues d).countP (isDupIssueFor d v) = 0 := by
  rw [List.countP_eq_zero]
  intro i hi
  obtain ⟨cls, f, hm⟩ := mem_reqIssues d i hi
  simp only [isDupIssueFor, decide_eq_true_eq]
  rintro ⟨-, -, hmsg⟩
  exact reqMessage_ne_dupMessage cls f v _ (hm ▸ hmsg)

theorem countP_danglingIssues (d : UnityYAMLDocument) (v : Int) :
    (danglingIssues d).countP (isDupIssueFor d v) = 0 := by
  rw [List.countP_eq_zero]
  intro i hi
  have hw := mem_danglingIssues d i hi
  simp only [isDupIssueFor, decide_eq_true_eq]
  rintro ⟨he, -, -⟩
  rw [hw] at he
  cases he

/-- `validate` yields exactly one duplicate-fileID Issue per duplicated id. -/
theorem validate_dup_count (strict : Bool) (d : UnityYAMLDocument) (v : Int) :
    ((PrefabValidator.validate ⟨strict⟩ d).issues.countP (isDupIssueFor d v)) =
      if v ∈ duplicatedIds d then 1 else 0 := by
  show ((dupIssues d ++ reqIssues d ++ danglingIssues d).countP (isDupIssueFor d v)) = _
  rw [List.countP_append, List.countP_append, countP_dupIssues, countP_reqIssues,
    countP_danglingIssues]
  omega

/-- A text in which two non-stripped objects share fileID `1001`. -/
def dupText : String :=
  "--- !u!65 &1001\nBoxCollider:\n  m_Enabled: 1\n--- !u!135 &1001\nSphereCollider:\n  m_Radius: 0.5\n"

/-- The document `dupText` parses to. -/
def dupDoc : UnityYAMLDocument :=
  ⟨[⟨65, "BoxCollider", 1001, false, .cons "m_Enabled" (.scalar "1") .nil⟩,
    ⟨135, "SphereCollider", 1001, false, .cons "m_Radius" (.scalar "0.5") .nil⟩]⟩

end PrefabTool

namespace UnityflowMCP

/-! ### The MCP JSON-RPC server (embedded from `src/unityflow/mcp/server.py`)

JSON values are modelled by an inductive; the Unity HTTP client that
`call_tool` dispatches to performs network I/O and is abstracted as an oracle
`clientResult` returning either a result payload or an exception message.
`json.loads` on stdin lines is likewise abstracted as a `jloads` parameter
whose `none` stands for a `JSONDecodeError` (a JSON value that is not an
object would raise outside `read_message` and is not modelled). -/

inductive Json where
  | null : Json
  | bool : Bool → Json
  | num : Int → Json
  | str : String → Json
  | arr : List Json → Json
  | obj : List (String × Json) → Json

def PROTOCOL_VERSION : String := "2024-11-05"

def SERVER_NAME : String := "unity-mcp"

def SERVER_VERSION : String := "1.0.0"

def emptySchema : Json :=
  .obj [("type", .str "object"), ("properties", .obj []), ("required", .arr [])]

def toolEntry (name description : String) (schema : Json) : Json :=
  .obj [("name", .str name), ("description", .str description), ("inputSchema", schema)]

/-- The server's tool table (descriptions as in the source). -/
def TOOLS : Json := .arr
  [toolEntry "unity_status"
    "Unity Editor 상태를 조회합니다. Unity 버전, 프로젝트 이름, Play 모드 상태, 컴파일 상태 등을 확인할 수 있습니다."
    emptySchema,
  toolEntry "unity_refresh"
    "Unity AssetDatabase.Refresh()를 호출합니다. 파일 시스템에서 변경된 에셋을 Unity가 인식하도록 합니다. unityflow로 파일을 수정한 후 이 도구를 호출하세요."
    emptySchema,
  toolEntry "unity_logs"
    "Unity 콘솔 로그를 조회합니다. 에러, 경고, 일반 로그를 확인할 수 있습니다."
    (.obj [("type", .str "object"),
      ("properties", .obj
        [("count", .obj [("type", .str "integer"),
          ("description", .str "가져올 로그 수 (기본값: 50)"), ("default", .num 50)]),
        ("level", .obj [("type", .str "string"),
          ("description", .str "필터링할 로그 레벨"),
          ("enum", .arr [.str "error", .str "warning", .str "log"])])]),
      ("required", .arr [])]),
  toolEntry "unity_clear_logs" "Unity 로그 버퍼를 클리어합니다." emptySchema,
  toolEntry "unity_compile_status"
    "Unity 컴파일 상태를 확인합니다. 컴파일 중인지, 에러가 있는지 확인할 수 있습니다." emptySchema,
  toolEntry "unity_play" "Unity Play 모드를 시작합니다." emptySchema,
  toolEntry "unity_stop" "Unity Play 모드를 종료합니다." emptySchema,
  toolEntry "unity_pause" "Unity Play 모드 일시정지를 토글합니다." emptySchema,
  toolEntry "unity_ping"
    "Unity에서 특정 에셋을 하이라이트하고 선택합니다. 사용자에게 작업 결과를 보여줄 때 유용합니다."
    (.obj [("type", .str "object"),
      ("properties", .obj
        [("path", .obj [("type", .str "string"),
          ("description", .str "에셋 경로 (예: 'Assets/Prefabs/Player.prefab')")])]),
      ("required", .arr [.str "path"])]),
  toolEntry "unity_selection"
    "Unity Editor에서 현재 선택된 오브젝트 목록을 조회합니다." emptySchema,
  toolEntry "unity_project_path" "Unity 프로젝트 경로를 조회합니다." emptySchema,
  toolEntry "unity_current_scene" "현재 열려 있는 씬 정보를 조회합니다." emptySchema]

def toolNames : List String :=
  ["unity_status", "unity_refresh", "unity_logs", "unity_clear_logs",
   "unity_compile_status", "unity_play", "unity_stop", "unity_pause",
   "unity_ping", "unity_selection", "unity_project_path", "unity_current_scene"]

def quoteChar : Char := Char.ofNat 34

mutual
def jsonDumpsChars : Json → List Char
  | .null => "null".data
  | .bool true => "true".data
  | .bool false => "false".data
  | .num n => PrefabTool.intToChars n
  | .str s => quoteChar :: s.data ++ [quoteChar]
  | .arr l => Char.ofNat 91 :: jsonDumpsArr l ++ [Char.ofNat 93]
  | .obj l => PrefabTool.lbraceChar :: jsonDumpsObj l ++ [PrefabTool.rbraceChar]
def jsonDumpsArr : List Json → List Char
  | [] => []
  | [v] => jsonDumpsChars v
  | v :: t => jsonDumpsChars v ++ [PrefabTool.commaChar, PrefabTool.spaceChar] ++ jsonDumpsArr t
def jsonDumpsObj : List (String × Json) → List Char
  | [] => []
  | [(k, v)] => quoteChar :: k.data ++ [quoteChar, PrefabTool.colonChar, PrefabTool.spaceChar] ++
      jsonDumpsChars v
  | (k, v) :: t => quoteChar :: k.data ++ [quoteChar, PrefabTool.colonChar, PrefabTool.spaceChar] ++
      jsonDumpsChars v ++ [PrefabTool.commaChar, PrefabTool.spaceChar] ++ jsonDumpsObj t
end

/-- Serialization of a tool result (indentation of `json.dumps` abstracted). -/
def jsonDumps (j : Json) : String := String.mk (jsonDumpsChars j)

def jLookup : List (String × Json) → String → Option Json
  | [], _ => none
  | (k, v) :: t, key => if k = key then some v else jLookup t key

/-- `key in dict` on the modelled JSON object. -/
def hasKeyJ (l : List (String × Json)) (k : String) : Bool :=
  (jLookup l k).isSome

/-- The methods `handle_request` recognizes (dispatches without `-32601`). -/
def recognizedMethods : List String :=
  ["initialize", "notifications/initialized", "tools/list", "tools/call", "ping"]

/-- `call_tool(name, arguments)`: dispatches to the Unity client (the oracle
`clientResult`, whose `.error` branch stands for a raised exception caught by
the handler) and wraps the outcome as MCP tool-call content. -/
def call_tool (clientResult : String → Json → Except String Json)
    (name : String) (arguments : Json) : Json :=
  if toolNames.contains name then
    match clientResult name arguments with
    | .ok result =>
        .obj [("content", .arr [.obj [("type", .str "text"),
          ("text", .str (jsonDumps result))]])]
    | .error e =>
        .obj [("content", .arr [.obj [("type", .str "text"), ("text", .str e)]]),
          ("isError", .bool true)]
  else .obj [("error", .str ("Unknown tool: " ++ name))]

def initializeResult : Json :=
  .obj [("protocolVersion", .str PROTOCOL_VERSION),
    ("capabilities", .obj [("tools", .obj [])]),
    ("serverInfo", .obj [("name", .str SERVER_NAME), ("version", .str SERVER_VERSION)])]

def isMethodStr (method : Json) (s : String) : Bool :=
  match method with
  | .str m => m = s
  | _ => false

def Json.isNull : Json → Bool
  | .null => true
  | _ => false

/-- Python's string interpolation `f"...{method}"` of a JSON value. -/
def pyStr : Json → String
  | .str s => s
  | j => String.mk (jsonDumpsChars j)

/-- The dispatch part of `handle_request`: the `result` of a recognized
method, or the JSON-RPC error (code, message).  A `tools/call` whose params
value is not an object raises inside the handler's `try` and yields the
`-32603` internal error; an unrecognized method yields `-32601`. -/
def dispatchResult (clientResult : String → Json → Except String Json)
    (method params : Json) : Except (Int × String) Json :=
  if isMethodStr method "initialize" then .ok initializeResult
  else if isMethodStr method "tools/list" then .ok (.obj [("tools", TOOLS)])
  else if isMethodStr method "tools/call" then
    match params with
    | .obj pl =>
        let toolName : String :=
          match (jLookup pl "name").getD (.str "") with
          | .str s => s
          | _ => ""
        let arguments : Json := (jLookup pl "arguments").getD (.obj [])
        .ok (call_tool clientResult toolName arguments)
    | _ => .error (-32603, "params object has no attribute get")
  else if isMethodStr method "ping" then .ok (.obj [])
  else .error (-32601, "Method not found: " ++ pyStr method)

/-- The response-building part of `handle_request`: `jsonrpc: "2.0"`, the
request id when it is not `None`, then exactly one of `error` or `result`. -/
def buildResponse (requestId : Json) (re : Except (Int × String) Json) :
    List (String × Json) :=
  let withId : List (String × Json) :=
    [("jsonrpc", Json.str "2.0")] ++
      (if requestId.isNull then [] else [("id", requestId)])
  match re with
  | .error ec =>
      withId ++ [("error", .obj [("code", .num ec.1), ("message", .str ec.2)])]
  | .ok result => withId ++ [("result", result)]

/-- `handle_request(request)`: returns `none` (no response) exactly for the
`notifications/initialized` notification; otherwise dispatches and builds the
JSON-RPC 2.0 response. -/
def handle_request (clientResult : String → Json → Except String Json)
    (request : List (String × Json)) : Option (List (String × Json)) :=
  let method : Json := (jLookup request "method").getD (.str "")
  let params : Json := (jLookup request "params").getD (.obj [])
  let requestId : Json := (jLookup request "id").getD .null
  if isMethodStr method "notifications/initialized" then none
  else some (buildResponse requestId (dispatchResult clientResult method params))

/-- `read_message()`: one line from stdin (the list models the stream, an
empty list is EOF); `none` for EOF or a `JSONDecodeError`. -/
def read_message (jloads : String → Option (List (String × Json))) :
    List String → Option (List (String × Json)) × List String
  | [] => (none, [])
  | l :: rest => (jloads l, rest)

/-- The server main loop: reads messages until `read_message` returns `none`,
writing every non-`none` response. -/
def serverMain (clientResult : String → Json → Except String Json)
    (jloads : String → Option (List (String × Json))) :
    List String → List (List (String × Json))
  | [] => []
  | l :: rest =>
      match jloads l with
      | none => []
      | some req =>
          match handle_request clientResult req with
          | none => serverMain clientResult jloads rest
          | some resp => resp :: serverMain clientResult jloads rest

end UnityflowMCP

namespace PrefabToolCLI

open PrefabTool

/-! ### The CLI option plumbing (embedded from `src/prefab_tool/cli.py`)

The `normalize` command's click options: every `--no-...` switch and
`--hex-floats` is an `is_flag` option defaulting to false, `--precision`
defaults to 6; the command constructs
`UnityPrefabNormalizer(sort_documents=not no_sort_documents, ...)`
(cli.py lines 108-115). -/

structure NormalizeCmdArgs where
  no_sort_documents : Bool := false
  no_sort_modifications : Bool := false
  no_normalize_floats : Bool := false
  hex_floats : Bool := false
  no_normalize_quaternions : Bool := false
  precision : Nat := 6
  deriving DecidableEq

def normalizeCmdNormalizer (a : NormalizeCmdArgs) : UnityPrefabNormalizer :=
  { sort_documents := !a.no_sort_documents,
    sort_modifications := !a.no_sort_modifications,
    normalize_floats := !a.no_normalize_floats,
    use_hex_floats := a.hex_floats,
    normalize_quaternions := !a.no_normalize_quaternions,
    float_precision := a.precision }

/-- Text-level behavior of the `normalize` command on one input. -/
def normalizeCmd (a : NormalizeCmdArgs) (text : String) : Except ParseError String :=
  (normalizeCmdNormalizer a).normalize_text text

/-- The `merge` command (cli.py lines 449-463): all three files are
normalized with a default-constructed `UnityPrefabNormalizer()` and the
normalized contents are handed to `three_way_merge`. -/
def mergeFilesCmd (base ours theirs : String) : Except ParseError (String × Bool) :=
  match UnityPrefabNormalizer.normalize_text {} base,
      UnityPrefabNormalizer.normalize_text {} ours,
      UnityPrefabNormalizer.normalize_text {} theirs with
  | .ok bc, .ok oc, .ok tc => three_way_merge bc oc tc
  | .error e, _, _ => .error e
  | .ok _, .error e, _ => .error e
  | .ok _, .ok _, .error e => .error e

end PrefabToolCLI

namespace PrefabTool

/-! ### Claim theorems -/

/-- Claim C8: in the `normalize` entry point every normalization option
defaults to enabled — `sort_documents`, `sort_modifications`,
`normalize_floats` and `normalize_quaternions` are on unless explicitly
disabled by the corresponding `--no-...` flag, hex floats are off by default,
and `float_precision` defaults to 6 decimal digits. -/
theorem C8_normalize_cmd_defaults :
    (PrefabToolCLI.normalizeCmdNormalizer {} =
      { sort_documents := true, sort_modifications := true, normalize_floats := true,
        use_hex_floats := false, normalize_quaternions := true, float_precision := 6 }) ∧
    (∀ a : PrefabToolCLI.NormalizeCmdArgs,
      (PrefabToolCLI.normalizeCmdNormalizer a).sort_documents = !a.no_sort_documents ∧
      (PrefabToolCLI.normalizeCmdNormalizer a).sort_modifications =
        !a.no_sort_modifications ∧
      (PrefabToolCLI.normalizeCmdNormalizer a).normalize_floats =
        !a.no_normalize_floats ∧
      (PrefabToolCLI.normalizeCmdNormalizer a).use_hex_floats = a.hex_floats ∧
      (PrefabToolCLI.normalizeCmdNormalizer a).normalize_quaternions =
        !a.no_normalize_quaternions ∧
      (PrefabToolCLI.normalizeCmdNormalizer a).float_precision = a.precision) :=
  ⟨rfl, fun _ => ⟨rfl, rfl, rfl, rfl, rfl, rfl⟩⟩

/-- Claim C4: the hex-float codec reproduces the exact original IEEE-754 bit
pattern for every 32-bit and every 64-bit value — encoding a bit pattern with
`encodeHexBits` and decoding with `decodeHexBits` is the identity, which
covers negative zero and all special values. -/
theorem C4_hex_float_roundtrip : ∀ bits : Nat,
    (bits < 2 ^ 32 → decodeHexBits 32 (encodeHexBits 32 bits) = some bits) ∧
    (bits < 2 ^ 64 → decodeHexBits 64 (encodeHexBits 64 bits) = some bits) :=
  fun bits =>
    ⟨fun h => decodeHexBits_encodeHexBits 32 bits (by norm_num) h,
     fun h => decodeHexBits_encodeHexBits 64 bits (by norm_num) h⟩

/-- Witness for C4 at concrete bit patterns: binary64 `0.1`
(`0x3FB999999999999A`), binary64 `-0.0` (`2 ^ 63`), the largest finite
binary64 (`0x7FEFFFFFFFFFFFFF`), the smallest subnormal (`1`), binary32 `0.1`
(`0x3DCCCCCD`) and binary32 `-0.0` (`2 ^ 31`). -/
theorem C4_witness :
    decodeHexBits 64 (encodeHexBits 64 4591870180066957722) = some 4591870180066957722 ∧
    decodeHexBits 64 (encodeHexBits 64 9223372036854775808) = some 9223372036854775808 ∧
    decodeHexBits 64 (encodeHexBits 64 9218868437227405311) = some 9218868437227405311 ∧
    decodeHexBits 64 (encodeHexBits 64 1) = some 1 ∧
    decodeHexBits 32 (encodeHexBits 32 1036831949) = some 1036831949 ∧
    decodeHexBits 32 (encodeHexBits 32 2147483648) = some 2147483648 :=
  ⟨(C4_hex_float_roundtrip 4591870180066957722).2 (by norm_num),
   (C4_hex_float_roundtrip 9223372036854775808).2 (by norm_num),
   (C4_hex_float_roundtrip 9218868437227405311).2 (by norm_num),
   (C4_hex_float_roundtrip 1).2 (by norm_num),
   (C4_hex_float_roundtrip 1036831949).1 (by norm_num),
   (C4_hex_float_roundtrip 2147483648).1 (by norm_num)⟩

/-- Claim C6: `is_valid` is true iff the issue list contains no
error-severity issue, and in strict mode additionally no warning-severity
issue is present. -/
theorem C6_is_valid_iff : ∀ (strict : Bool) (d : UnityYAMLDocument),
    (PrefabValidator.validate ⟨strict⟩ d).is_valid = true ↔
      ((∀ i ∈ (PrefabValidator.validate ⟨strict⟩ d).issues, i.severity ≠ .error) ∧
       (strict = true →
         ∀ i ∈ (PrefabValidator.validate ⟨strict⟩ d).issues, i.severity ≠ .warning)) := by
  intro strict d
  unfold ValidationResult.is_valid ValidationResult.errors ValidationResult.warnings
  cases strict with
  | false =>
    simp [PrefabValidator.validate, List.isEmpty_iff, List.filter_eq_nil_iff]
    constructor
    · rintro ⟨h1, h2, h3⟩ i hi
      rcases hi with hi | hi | hi
      exacts [h1 i hi, h2 i hi, h3 i hi]
    · intro h
      exact ⟨fun i hi => h i (Or.inl hi), fun i hi => h i (Or.inr (Or.inl hi)),
        fun i hi => h i (Or.inr (Or.inr hi))⟩
  | true =>
    simp [PrefabValidator.validate, List.isEmpty_iff, List.filter_eq_nil_iff]
    constructor
    · rintro ⟨⟨h1, h2, h3⟩, h4, h5, h6⟩
      refine ⟨fun i hi => ?_, fun i hi => ?_⟩
      · rcases hi with hi | hi | hi
        exacts [h1 i hi, h2 i hi, h3 i hi]
      · rcases hi with hi | hi | hi
        exacts [h4 i hi, h5 i hi, h6 i hi]
    · rintro ⟨he, hw⟩
      exact ⟨⟨fun i hi => he i (Or.inl hi), fun i hi => he i (Or.inr (Or.inl hi)),
              fun i hi => he i (Or.inr (Or.inr hi))⟩,
             fun i hi => hw i (Or.inl hi), fun i hi => hw i (Or.inr (Or.inl hi)),
             fun i hi => hw i (Or.inr (Or.inr hi))⟩

/-- Witness for C6: the empty document is valid in strict mode. -/
theorem C6_witness : (PrefabValidator.validate ⟨true⟩ ⟨[]⟩).is_valid = true :=
  (C6_is_valid_iff true ⟨[]⟩).mpr (by decide)

/-- Claim C1: for every parseable document `D` (and for every option set
not using hex-float mode, which includes the default), normalization is
idempotent — `normalize(normalize(D)) = normalize(D)` — and the two rendered
texts are identical bit-for-bit. -/
theorem C1_normalize_idempotent :
    ∀ (o : UnityPrefabNormalizer), o.use_hex_floats = false →
    ∀ (t : String) (d : UnityYAMLDocument),
      UnityYAMLDocument.parse t = .ok d →
      normalizeDoc o (normalizeDoc o d) = normalizeDoc o d ∧
      render (normalizeDoc o (normalizeDoc o d)) = render (normalizeDoc o d) :=
  fun o hhex _ d _ =>
    ⟨normalizeDoc_idem o hhex d, congrArg render (normalizeDoc_idem o hhex d)⟩

set_option maxRecDepth 10000 in
/-- Witness for C1: default options on the parsed `dupText`. -/
theorem C1_witness :
    normalizeDoc {} (normalizeDoc {} dupDoc) = normalizeDoc {} dupDoc ∧
    render (normalizeDoc {} (normalizeDoc {} dupDoc)) = render (normalizeDoc {} dupDoc) :=
  C1_normalize_idempotent {} rfl dupText dupDoc (by decide)

set_option maxRecDepth 10000 in
/-- Claim C5: duplicate fileIDs are never a parse failure — `dupText`, whose
two non-stripped objects collide on fileID `1001`, parses successfully — and
on every parsed document `validate` returns exactly one error-severity Issue
per duplicated fileID value, carrying the message that names all colliding
objects. -/
theorem C5_duplicate_fileids :
    (∀ (t : String) (d : UnityYAMLDocument) (strict : Bool),
      UnityYAMLDocument.parse t = .ok d →
      ∀ v : Int,
        (PrefabValidator.validate ⟨strict⟩ d).issues.countP (isDupIssueFor d v) =
          if v ∈ duplicatedIds d then 1 else 0) ∧
    (UnityYAMLDocument.parse dupText = .ok dupDoc ∧ duplicatedIds dupDoc = [1001] ∧
      collidersOf dupDoc 1001 = ["BoxCollider", "SphereCollider"]) :=
  ⟨fun _ d strict _ v => validate_dup_count strict d v, by decide, by decide, by decide⟩

set_option maxRecDepth 10000 in
/-- Witness for C5: on the parsed `dupText` the validator emits exactly one
duplicate-fileID error Issue for fileID `1001`. -/
theorem C5_witness :
    (PrefabValidator.validate ⟨false⟩ dupDoc).issues.countP (isDupIssueFor dupDoc 1001) = 1 :=
  (C5_duplicate_fileids.1 dupText dupDoc false (by decide) 1001).trans (by decide)

/-- Claim C7 (amended): for every parseable input `B`, `three_way_merge(B, B, B)`
returns conflict flag `false`, and — provided the normalized document has no
duplicate fileIDs — its text is exactly `normalize(B)` rendered.  The
duplicate-fileID restriction is forced by `C7_counterexample`: the fileID-keyed
alignment visits each distinct id once, so a duplicated object is dropped from
the merge of three identical copies. -/
theorem C7_merge_self_amended :
    (∀ (B : String) (d : UnityYAMLDocument),
      UnityYAMLDocument.parse B = .ok d →
      ∃ s : String, three_way_merge B B B = .ok (s, false)) ∧
    (∀ (B : String) (d : UnityYAMLDocument),
      UnityYAMLDocument.parse B = .ok d →
      (idsOf (normalizeDoc {} d)).Nodup →
      three_way_merge B B B = .ok (render (normalizeDoc {} d), false)) := by
  constructor
  · intro B d h
    exact ⟨_, by
      simp only [three_way_merge, h]
      rw [mergeDocs_self_flag]⟩
  · intro B d h hnd
    simp only [three_way_merge, h]
    rw [mergeDocs_self _ _ (normalizeDoc_ids_pairwise {} rfl d) hnd]

set_option maxRecDepth 10000 in
/-- Counterexample for C7 as stated: `dupText` parses (to `dupDoc`, whose two
objects share fileID `1001`), yet merging it with itself three ways drops the
second colliding object, so the result is not `normalize(B)` rendered. -/
theorem C7_counterexample :
    UnityYAMLDocument.parse dupText = .ok dupDoc ∧
    three_way_merge dupText dupText dupText =
      .ok ("%YAML 1.1\n%TAG !u! tag:unity3d.com,2011:\n--- !u!65 &1001\nBoxCollider:\n  m_Enabled: 1\n",
        false) ∧
    three_way_merge dupText dupText dupText ≠
      .ok (render (normalizeDoc {} dupDoc), false) :=
  ⟨by decide, by decide, by decide⟩

set_option maxRecDepth 10000 in
/-- Witness for C7 (amended) at the single-object `soloText`. -/
theorem C7_witness :
    three_way_merge soloText soloText soloText =
      .ok (render (normalizeDoc {} soloDoc), false) :=
  C7_merge_self_amended.2 soloText soloDoc (by decide) (by decide)

/-- Claim C3: with `normalize_quaternions` enabled (and at least 4 digits of
float precision, which the default 6 satisfies), the quaternion rule maps a
unit quaternion `(x, y, z, w)` stored under an allow-listed property name and
its negation `(-x, -y, -z, -w)` to identical canonical output; and a
four-component `\x7bx, y, z, w\x7d` mapping stored under any property name
outside the allow-list is left unchanged by this rule. -/
theorem C3_quaternion_sign :
    (∀ (o : UnityPrefabNormalizer) (k : String) (sx sy sz sw tx ty tz tw : String)
        (dx dy dz dw : Dec),
      o.normalize_quaternions = true → k ∈ rotationKeys → 4 ≤ o.float_precision →
      parseNum? sx.data = some dx → parseNum? sy.data = some dy →
      parseNum? sz.data = some dz → parseNum? sw.data = some dw →
      parseNum? tx.data = some ⟨-dx.num, dx.scale⟩ →
      parseNum? ty.data = some ⟨-dy.num, dy.scale⟩ →
      parseNum? tz.data = some ⟨-dz.num, dz.scale⟩ →
      parseNum? tw.data = some ⟨-dw.num, dw.scale⟩ →
      decVal dx ^ 2 + decVal dy ^ 2 + decVal dz ^ 2 + decVal dw ^ 2 = 1 →
      quatStep o k (vquad sx sy sz sw) = quatStep o k (vquad tx ty tz tw)) ∧
    (∀ (o : UnityPrefabNormalizer) (k : String) (v : Value),
      k ∉ rotationKeys → quatStep o k v = v) :=
  ⟨fun o k sx sy sz sw tx ty tz tw dx dy dz dw hq hk hp h1 h2 h3 h4 h5 h6 h7 h8 hu =>
    quatStep_sign_invariant o k sx sy sz sw tx ty tz tw dx dy dz dw hq hk hp
      h1 h2 h3 h4 h5 h6 h7 h8 hu,
   fun o k v h => quatStep_outside o k v h⟩

/-- Witness for C3: the unit quaternion `(0.6, -0.8, 0.0, 0.0)` and its
negation canonicalize identically under `m_LocalRotation`; a four-component
mapping under `m_Scale` is untouched. -/
theorem C3_witness :
    quatStep {} "m_LocalRotation" (vquad "0.6" "-0.8" "0.0" "0.0") =
      quatStep {} "m_LocalRotation" (vquad "-0.6" "0.8" "-0.0" "-0.0") ∧
    quatStep {} "m_Scale" (vquad "1.0" "2.0" "3.0" "4.0") =
      vquad "1.0" "2.0" "3.0" "4.0" :=
  ⟨C3_quaternion_sign.1 {} "m_LocalRotation" "0.6" "-0.8" "0.0" "0.0"
      "-0.6" "0.8" "-0.0" "-0.0"
      ⟨6, 1⟩ ⟨-8, 1⟩ ⟨0, 1⟩ ⟨0, 1⟩ rfl (by decide) (by decide)
      (by decide) (by decide) (by decide) (by decide)
      (by decide) (by decide) (by decide) (by decide)
      (by norm_num [decVal]),
   C3_quaternion_sign.2 {} "m_Scale" _ (by decide)⟩

/-- Claim C2 (amended): `three_way_merge` parses the three inputs and
normalizes each of them independently, merges the normalized documents
aligned by fileID, and renders the merged document through the Normalizer's
renderer; the output's objects are ordered by fileID.  The further claim that
the output — conflicted or not — "is therefore already in canonical form" is
refuted by `C2_counterexample`: per-component reconciliation can assemble a
rotation value the normalizer would still rewrite, so the amendment stops at
the pipeline and the ordering. -/
theorem C2_merge_pipeline_amended :
    ∀ (b o t : String) (db dd dt : UnityYAMLDocument),
      UnityYAMLDocument.parse b = .ok db →
      UnityYAMLDocument.parse o = .ok dd →
      UnityYAMLDocument.parse t = .ok dt →
      (three_way_merge b o t =
        .ok (render (mergeDocs (b.data.length + o.data.length + t.data.length + 8)
            (normalizeDoc {} db) (normalizeDoc {} dd) (normalizeDoc {} dt)).1,
          (mergeDocs (b.data.length + o.data.length + t.data.length + 8)
            (normalizeDoc {} db) (normalizeDoc {} dd) (normalizeDoc {} dt)).2)) ∧
      (idsOf (mergeDocs (b.data.length + o.data.length + t.data.length + 8)
          (normalizeDoc {} db) (normalizeDoc {} dd) (normalizeDoc {} dt)).1).Pairwise
        (· ≤ ·) := by
  intro b o t db dd dt hb ho ht
  refine ⟨?_, idsOf_mergeDocs_pairwise _ _ _ _⟩
  simp only [three_way_merge, hb, ho, ht]

set_option maxRecDepth 10000 in
/-- Counterexample for C2 as stated: merging `qBase`, `qOurs`, `qTheirs` is
clean (conflict flag `false`) and produces `qMergedText`, but normalizing
`qMergedText` yields the different `qRenormText` — the merged text is not in
canonical form. -/
theorem C2_counterexample :
    three_way_merge qBase qOurs qTheirs = .ok (qMergedText, false) ∧
    UnityPrefabNormalizer.normalize_text {} qMergedText = .ok qRenormText ∧
    qRenormText ≠ qMergedText :=
  ⟨by decide, by decide, by decide⟩

set_option maxRecDepth 10000 in
/-- Witness for C2 (amended) at the single-object `soloText` triple. -/
theorem C2_witness :
    (three_way_merge soloText soloText soloText =
      .ok (render (mergeDocs (soloText.data.length + soloText.data.length +
          soloText.data.length + 8)
          (normalizeDoc {} soloDoc) (normalizeDoc {} soloDoc) (normalizeDoc {} soloDoc)).1,
        (mergeDocs (soloText.data.length + soloText.data.length + soloText.data.length + 8)
          (normalizeDoc {} soloDoc) (normalizeDoc {} soloDoc) (normalizeDoc {} soloDoc)).2)) ∧
    (idsOf (mergeDocs (soloText.data.length + soloText.data.length + soloText.data.length + 8)
        (normalizeDoc {} soloDoc) (normalizeDoc {} soloDoc) (normalizeDoc {} soloDoc)).1).Pairwise
      (· ≤ ·) :=
  C2_merge_pipeline_amended soloText soloText soloText soloDoc soloDoc soloDoc
    (by decide) (by decide) (by decide)

end PrefabTool

namespace UnityflowMCP

theorem handle_request_eq (cr : String → Json → Except String Json)
    (request : List (String × Json)) :
    handle_request cr request =
      if isMethodStr ((jLookup request "method").getD (.str ""))
          "notifications/initialized" then none
      else some (buildResponse ((jLookup request "id").getD .null)
        (dispatchResult cr ((jLookup request "method").getD (.str ""))
          ((jLookup request "params").getD (.obj [])))) := rfl

theorem buildResponse_jsonrpc (rid : Json) (re : Except (Int × String) Json) :
    jLookup (buildResponse rid re) "jsonrpc" = some (.str "2.0") := by
  cases re <;> simp [buildResponse, jLookup]

theorem buildResponse_result_error (rid : Json) (re : Except (Int × String) Json) :
    hasKeyJ (buildResponse rid re) "result" = !(hasKeyJ (buildResponse rid re) "error") := by
  cases h : rid.isNull <;> cases re <;> simp [buildResponse, hasKeyJ, jLookup, h]

theorem buildResponse_id (rid : Json) (re : Except (Int × String) Json) :
    hasKeyJ (buildResponse rid re) "id" = !rid.isNull := by
  cases h : rid.isNull <;> cases re <;> simp [buildResponse, hasKeyJ, jLookup, h]

theorem buildResponse_error_lookup (rid : Json) (c : Int) (m : String) :
    jLookup (buildResponse rid (.error (c, m))) "error" =
      some (.obj [("code", .num c), ("message", .str m)]) := by
  cases h : rid.isNull <;> simp [buildResponse, jLookup, h]

theorem dispatchResult_unrecognized (cr : String → Json → Except String Json)
    (method params : Json)
    (h : ∀ s ∈ recognizedMethods, isMethodStr method s = false) :
    dispatchResult cr method params =
      .error (-32601, "Method not found: " ++ pyStr method) := by
  have h1 := h "initialize" (by simp [recognizedMethods])
  have h2 := h "tools/list" (by simp [recognizedMethods])
  have h3 := h "tools/call" (by simp [recognizedMethods])
  have h4 := h "ping" (by simp [recognizedMethods])
  simp [dispatchResult, h1, h2, h3, h4]

/-- Claim C9: `handle_request` returns `None` exactly when the method is
`notifications/initialized`; every other request gets a response whose
`jsonrpc` key is `"2.0"`, that contains exactly one of the keys `result` and
`error`, that contains the `id` key iff the request's id is not `None`, and
whose `error` carries code `-32601` (with the method-not-found message)
whenever the method is not one of the recognized methods. -/
theorem C9_handle_request_shape :
    ∀ (cr : String → Json → Except String Json) (request : List (String × Json)),
    (handle_request cr request = none ↔
      isMethodStr ((jLookup request "method").getD (.str ""))
        "notifications/initialized" = true) ∧
    (∀ resp, handle_request cr request = some resp →
      jLookup resp "jsonrpc" = some (.str "2.0") ∧
      hasKeyJ resp "result" = !(hasKeyJ resp "error") ∧
      hasKeyJ resp "id" = !((jLookup request "id").getD .null).isNull ∧
      ((∀ s ∈ recognizedMethods,
          isMethodStr ((jLookup request "method").getD (.str "")) s = false) →
        jLookup resp "error" = some (.obj [("code", .num (-32601)),
          ("message", .str ("Method not found: " ++
            pyStr ((jLookup request "method").getD (.str ""))))]))) := by
  intro cr request
  rw [handle_request_eq]
  by_cases hN : isMethodStr ((jLookup request "method").getD (.str ""))
      "notifications/initialized" = true
  · rw [if_pos hN]
    exact ⟨⟨fun _ => hN, fun _ => rfl⟩, fun resp h => Option.noConfusion h⟩
  · rw [if_neg hN]
    refine ⟨⟨fun h => Option.noConfusion h, fun h => absurd h hN⟩, ?_⟩
    intro resp h
    cases h
    refine ⟨buildResponse_jsonrpc _ _, buildResponse_result_error _ _,
      buildResponse_id _ _, ?_⟩
    intro hAll
    rw [dispatchResult_unrecognized cr _ _ hAll]
    exact buildResponse_error_lookup _ _ _

/-- Witness for C9 at a concrete request with an unrecognized method
`"bogus"` and id `7`. -/
theorem C9_witness :
    jLookup (buildResponse (Json.num 7)
        (.error (-32601, "Method not found: bogus"))) "jsonrpc" =
      some (Json.str "2.0") ∧
    hasKeyJ (buildResponse (Json.num 7)
        (.error (-32601, "Method not found: bogus"))) "result" = false ∧
    hasKeyJ (buildResponse (Json.num 7)
        (.error (-32601, "Method not found: bogus"))) "id" = true ∧
    jLookup (buildResponse (Json.num 7)
        (.error (-32601, "Method not found: bogus"))) "error" =
      some (.obj [("code", .num (-32601)),
        ("message", .str "Method not found: bogus")]) := by
  have h := (C9_handle_request_shape (fun _ _ => Except.ok Json.null)
      [("jsonrpc", Json.str "2.0"), ("id", Json.num 7),
        ("method", Json.str "bogus")]).2
    (buildResponse (Json.num 7) (.error (-32601, "Method not found: bogus")))
    (by rfl)
  exact ⟨h.1, by simpa using h.2.1, h.2.2.1, h.2.2.2 (by decide)⟩

/-- Claim C10: the MCP server's main loop terminates not only at end of input
but also on the first stdin line that is not valid JSON — `read_message`
returns `none` both at EOF and on a `JSONDecodeError`, and `main` exits its
loop whenever `read_message` returns `none`, so a single malformed request
line shuts the server down (producing no further responses and no error
response for that line). -/
theorem C10_malformed_line_shuts_down :
    ∀ (clientResult : String → Json → Except String Json)
      (jloads : String → Option (List (String × Json))),
    (read_message jloads [] = (none, [])) ∧
    (∀ l rest, jloads l = none → (read_message jloads (l :: rest)).1 = none) ∧
    (∀ pre bad rest, jloads bad = none →
      serverMain clientResult jloads (pre ++ bad :: rest) =
        serverMain clientResult jloads pre) := by
  intro clientResult jloads
  refine ⟨rfl, fun l rest h => by simp [read_message, h], ?_⟩
  intro pre bad rest h
  induction pre with
  | nil =>
    show serverMain clientResult jloads (bad :: rest) = serverMain clientResult jloads []
    unfold serverMain
    rw [h]
  | cons l pre ih =>
    show serverMain clientResult jloads (l :: (pre ++ bad :: rest)) =
      serverMain clientResult jloads (l :: pre)
    simp only [serverMain]
    cases hj : jloads l with
    | none => rfl
    | some req =>
      dsimp only
      cases hh : handle_request clientResult req with
      | none => exact ih
      | some resp => rw [ih]

/-- Witness for C10: a malformed second line stops the loop after the first
line's output. -/
theorem C10_witness :
    serverMain (fun _ _ => Except.ok Json.null) (fun _ => none)
      (["a"] ++ "b" :: []) =
      serverMain (fun _ _ => Except.ok Json.null) (fun _ => none) ["a"] :=
  (C10_malformed_line_shuts_down (fun _ _ => Except.ok Json.null) (fun _ => none)).2.2
    ["a"] "b" [] rfl

end UnityflowMCP
